import Mathlib

/-! RealTime-Canva-Server: room registry, canvas-state store and session dispatcher.

A shallow embedding of `src/drawing-state.js`, `src/rooms.js` and the socket
handlers of `src/Server.js`.

Conventions of the embedding

* A JS `Map` keyed by strings is an association list in insertion order
  (`mapGet`, `mapHas`, `mapSet`, `mapDelete`).  A JS `Set` of freshly created
  objects is a list in insertion order.
* `Date.now()` / `new Date()` is a parameter `now : Nat` (milliseconds); one
  call of an operation reads one clock value.  Differences of clock readings
  are taken in `Int`, as JS subtraction may go negative.
* Version numbers and counters are `Nat`: the embedding idealises JS numbers
  as exact integers (they are exact below `2^53`).
* Room objects carry an object identity `ref`, because the callback scheduled
  by `removeClient` captures the room *object*, not the room id.
* `console.log` calls are dropped.
-/

/-! ## JS values and maps -/

/-- JSON scalars that pass through the server as blobs, colours and cursor positions. -/
inductive JsVal where
  | undefined
  | null
  | bool (b : Bool)
  | num (n : Int)
  | str (s : String)
  deriving DecidableEq, Repr

/-- JS truthiness (`!!v`). -/
def JsVal.truthy : JsVal → Bool
  | .undefined => false
  | .null => false
  | .bool b => b
  | .num n => n != 0
  | .str s => s != ""

/-- Truthiness of a variable that is `null` or a string (`if (currentRoom)`). -/
def strTruthy : Option String → Bool
  | none => false
  | some s => s != ""

/-- `Map.prototype.get`: the value stored under `k`, if any. -/
def mapGet {α : Type} : List (String × α) → String → Option α
  | [], _ => none
  | (k', v) :: rest, k => if k' = k then some v else mapGet rest k

/-- `Map.prototype.has`. -/
def mapHas {α : Type} (m : List (String × α)) (k : String) : Bool :=
  (mapGet m k).isSome

/-- `Map.prototype.set`: overwrite in place when the key exists, else append. -/
def mapSet {α : Type} : List (String × α) → String → α → List (String × α)
  | [], k, v => [(k, v)]
  | (k', v') :: rest, k, v =>
    if k' = k then (k', v) :: rest else (k', v') :: mapSet rest k v

/-- `Map.prototype.delete`. -/
def mapDelete {α : Type} (m : List (String × α)) (k : String) : List (String × α) :=
  m.filter (fun e => decide (e.1 ≠ k))

/-- Keys of a map, in iteration order. -/
def mapKeys {α : Type} (m : List (String × α)) : List String :=
  m.map (fun e => e.1)

/-! ## `drawing-state.js` -/

/-- The object stored per room by `saveState`. -/
structure CanvasState where
  canvasData : JsVal
  timestamp : Nat
  version : Nat
  deriving DecidableEq, Repr

/-- The result of `getStateMetadata`. -/
structure StateMetadata where
  roomId : String
  version : Nat
  timestamp : Nat
  age : Int
  deriving DecidableEq, Repr

/-- `class DrawingStateManager`: `this.states`. -/
structure DrawingStateManager where
  states : List (String × CanvasState)
  deriving DecidableEq, Repr

namespace DrawingStateManager

/-- `constructor()`. -/
def new : DrawingStateManager := { states := [] }

/-- `this.states.get(roomId)?.version || 0`. -/
def versionOrZero (m : DrawingStateManager) (roomId : String) : Nat :=
  match mapGet m.states roomId with
  | some st => if st.version = 0 then 0 else st.version
  | none => 0

/-- `saveState(roomId, canvasData)`. -/
def saveState (m : DrawingStateManager) (roomId : String) (canvasData : JsVal)
    (now : Nat) : DrawingStateManager :=
  { states := mapSet m.states roomId
      { canvasData := canvasData, timestamp := now, version := m.versionOrZero roomId + 1 } }

/-- `getState(roomId)`; `none` is `null`. -/
def getState (m : DrawingStateManager) (roomId : String) : Option CanvasState :=
  mapGet m.states roomId

/-- `clearState(roomId)`. -/
def clearState (m : DrawingStateManager) (roomId : String) : DrawingStateManager :=
  { states := mapDelete m.states roomId }

/-- `hasState(roomId)`. -/
def hasState (m : DrawingStateManager) (roomId : String) : Bool :=
  mapHas m.states roomId

/-- `getStateMetadata(roomId)`; `none` is `null`. -/
def getStateMetadata (m : DrawingStateManager) (roomId : String) (now : Nat) :
    Option StateMetadata :=
  match mapGet m.states roomId with
  | none => none
  | some state =>
    some { roomId := roomId, version := state.version, timestamp := state.timestamp,
           age := (now : Int) - (state.timestamp : Int) }

/-- One iteration of the loop of `cleanup`. -/
def cleanupStep (maxAge : Int) (now : Nat) (acc : DrawingStateManager × Nat)
    (entry : String × CanvasState) : DrawingStateManager × Nat :=
  if (now : Int) - (entry.2.timestamp : Int) > maxAge then
    ({ states := mapDelete acc.1.states entry.1 }, acc.2 + 1)
  else acc

/-- `cleanup(maxAge)`: the store afterwards and the returned count. -/
def cleanup (m : DrawingStateManager) (maxAge : Int) (now : Nat) :
    DrawingStateManager × Nat :=
  m.states.foldl (cleanupStep maxAge now) (m, 0)

/-- The default `maxAge` of `cleanup` (24 hours). -/
def defaultMaxAge : Int := 86400000

end DrawingStateManager

/-! ## `rooms.js` -/

/-- A membership record, as created by `addClient`. -/
structure Client where
  userId : String
  socketId : String
  username : String
  color : String
  cursorPos : JsVal
  deriving DecidableEq, Repr

/-- A room object.  `ref` is its object identity. -/
structure Room where
  ref : Nat
  id : String
  clients : List Client
  canvasState : JsVal
  createdAt : Nat
  lastActivity : Nat
  deriving DecidableEq, Repr

/-- A pending `setTimeout` callback of `removeClient`: it captured `roomId` and
the room object `room`, and may run once the clock has reached `due`. -/
structure Timer where
  due : Nat
  roomId : String
  room : Nat
  deriving DecidableEq, Repr

/-- An entry of the array returned by `getRoomStats`. -/
structure RoomStat where
  roomId : String
  clientCount : Nat
  hasCanvasState : Bool
  createdAt : Nat
  lastActivity : Nat
  deriving DecidableEq, Repr

/-- `class RoomManager`: `this.rooms`, together with the callbacks it has
scheduled (`timers`), the room objects that were deleted from the map but are
still referenced by such callbacks (`detached`), and the next fresh object
identity. -/
structure RoomManager where
  rooms : List (String × Room)
  detached : List Room
  timers : List Timer
  nextRef : Nat
  deriving DecidableEq, Repr

namespace RoomManager

/-- `constructor()`. -/
def new : RoomManager := { rooms := [], detached := [], timers := [], nextRef := 0 }

/-- The delay of the deferred deletion (`60000`). -/
def deletionDelay : Nat := 60000

/-- The default `maxAge` of `cleanupInactiveRooms` (1 hour). -/
def defaultMaxAge : Int := 3600000

/-- `getRoom(roomId)`: the manager afterwards and the returned room object. -/
def getRoom (m : RoomManager) (roomId : String) (now : Nat) : RoomManager × Room :=
  match mapGet m.rooms roomId with
  | some room => (m, room)
  | none =>
    let room : Room :=
      { ref := m.nextRef, id := roomId, clients := [], canvasState := JsVal.null,
        createdAt := now, lastActivity := now }
    ({ m with rooms := mapSet m.rooms roomId room, nextRef := m.nextRef + 1 }, room)

/-- `addClient(roomId, userId, socketId, username, color)`. -/
def addClient (m : RoomManager) (roomId userId socketId username color : String)
    (now : Nat) : RoomManager × Room :=
  let r := m.getRoom roomId now
  let room : Room :=
    { r.2 with
      clients := r.2.clients ++
        [{ userId := userId, socketId := socketId, username := username, color := color,
           cursorPos := JsVal.null }],
      lastActivity := now }
  ({ r.1 with rooms := mapSet r.1.rooms roomId room }, room)

/-- `removeClient(roomId, socketId)`: the manager afterwards and the returned
record (`none` is `null`). -/
def removeClient (m : RoomManager) (roomId socketId : String) (now : Nat) :
    RoomManager × Option Client :=
  match mapGet m.rooms roomId with
  | none => (m, none)
  | some room =>
    match room.clients.find? (fun c => decide (c.socketId = socketId)) with
    | none => (m, none)
    | some client =>
      let clients := room.clients.eraseP (fun c => decide (c.socketId = socketId))
      let room1 : Room := { room with clients := clients }
      let timers :=
        if clients.length = 0 then
          m.timers ++ [{ due := now + deletionDelay, roomId := roomId, room := room.ref }]
        else m.timers
      ({ m with rooms := mapSet m.rooms roomId room1, timers := timers }, some client)

/-- `this.rooms.delete(roomId)`; the deleted object stays reachable from callbacks. -/
def deleteRoom (m : RoomManager) (roomId : String) : RoomManager :=
  match mapGet m.rooms roomId with
  | none => m
  | some room =>
    { m with rooms := mapDelete m.rooms roomId, detached := m.detached ++ [room] }

/-- The current state of the room object with identity `ref`. -/
def deref (m : RoomManager) (ref : Nat) : Option Room :=
  match m.rooms.find? (fun e => decide (e.2.ref = ref)) with
  | some e => some e.2
  | none => m.detached.find? (fun r => decide (r.ref = ref))

/-- The body of the callback of `removeClient`, run for timer `t`. -/
def timerBody (m : RoomManager) (t : Timer) : RoomManager :=
  match m.deref t.room with
  | some room => if room.clients.length = 0 then m.deleteRoom t.roomId else m
  | none => m

/-- The `k`-th pending callback runs at clock reading `now`; nothing happens
when there is no such callback or its delay has not yet elapsed. -/
def fireTimer (m : RoomManager) (k : Nat) (now : Nat) : RoomManager :=
  match m.timers[k]? with
  | none => m
  | some t =>
    if t.due ≤ now then timerBody { m with timers := m.timers.eraseIdx k } t else m

/-- Replace the first element satisfying `p` by its image under `f`. -/
def updateFirst {α : Type} (p : α → Bool) (f : α → α) : List α → List α
  | [] => []
  | x :: xs => if p x then f x :: xs else x :: updateFirst p f xs

/-- `updateCursorPosition(roomId, userId, cursorPos)`. -/
def updateCursorPosition (m : RoomManager) (roomId userId : String) (cursorPos : JsVal) :
    RoomManager × Bool :=
  match mapGet m.rooms roomId with
  | none => (m, false)
  | some room =>
    if room.clients.any (fun c => decide (c.userId = userId)) then
      let room1 : Room :=
        { room with
          clients := updateFirst (fun c => decide (c.userId = userId))
            (fun c => { c with cursorPos := cursorPos }) room.clients }
      ({ m with rooms := mapSet m.rooms roomId room1 }, true)
    else (m, false)

/-- `getRoomClients(roomId)`. -/
def getRoomClients (m : RoomManager) (roomId : String) : List Client :=
  match mapGet m.rooms roomId with
  | some room => room.clients
  | none => []

/-- `setCanvasState(roomId, canvasData)`. -/
def setCanvasState (m : RoomManager) (roomId : String) (canvasData : JsVal) (now : Nat) :
    RoomManager :=
  let r := m.getRoom roomId now
  let room : Room := { r.2 with canvasState := canvasData, lastActivity := now }
  { r.1 with rooms := mapSet r.1.rooms roomId room }

/-- `getCanvasState(roomId)`. -/
def getCanvasState (m : RoomManager) (roomId : String) : JsVal :=
  match mapGet m.rooms roomId with
  | some room => room.canvasState
  | none => JsVal.null

/-- `getRoomStats()`. -/
def getRoomStats (m : RoomManager) : List RoomStat :=
  m.rooms.map (fun e =>
    { roomId := e.1, clientCount := e.2.clients.length,
      hasCanvasState := e.2.canvasState.truthy,
      createdAt := e.2.createdAt, lastActivity := e.2.lastActivity })

/-- The test of the loop of `cleanupInactiveRooms`. -/
def inactive (maxAge : Int) (now : Nat) (room : Room) : Bool :=
  decide (room.clients.length = 0) && decide ((now : Int) - (room.lastActivity : Int) > maxAge)

/-- One iteration of the loop of `cleanupInactiveRooms`. -/
def cleanupRoomStep (maxAge : Int) (now : Nat) (acc : RoomManager) (entry : String × Room) :
    RoomManager :=
  if inactive maxAge now entry.2 then acc.deleteRoom entry.1 else acc

/-- `cleanupInactiveRooms(maxAge)`. -/
def cleanupInactiveRooms (m : RoomManager) (maxAge : Int) (now : Nat) : RoomManager :=
  m.rooms.foldl (cleanupRoomStep maxAge now) m

end RoomManager

/-! ## Executions of the room registry -/

/-- The calls that can reach a `RoomManager`: its methods, and the firing of
one of its pending callbacks. -/
inductive RegOp where
  | getRoom (roomId : String)
  | addClient (roomId userId socketId username color : String)
  | removeClient (roomId socketId : String)
  | updateCursorPosition (roomId userId : String) (cursorPos : JsVal)
  | setCanvasState (roomId : String) (canvasData : JsVal)
  | cleanupInactiveRooms (maxAge : Int)
  | fireTimer (k : Nat)
  deriving DecidableEq, Repr

namespace RoomManager

/-- The registry after one call made at clock reading `now`. -/
def apply (m : RoomManager) (now : Nat) : RegOp → RoomManager
  | .getRoom roomId => (m.getRoom roomId now).1
  | .addClient roomId userId socketId username color =>
    (m.addClient roomId userId socketId username color now).1
  | .removeClient roomId socketId => (m.removeClient roomId socketId now).1
  | .updateCursorPosition roomId userId cursorPos =>
    (m.updateCursorPosition roomId userId cursorPos).1
  | .setCanvasState roomId canvasData => m.setCanvasState roomId canvasData now
  | .cleanupInactiveRooms maxAge => m.cleanupInactiveRooms maxAge now
  | .fireTimer k => m.fireTimer k now

/-- The registry after a sequence of timestamped calls. -/
def exec (m : RoomManager) (ops : List (Nat × RegOp)) : RoomManager :=
  ops.foldl (fun acc op => acc.apply op.1 op.2) m

end RoomManager

/-! ## `Server.js` -/

/-- An element of the `users` array of `users-update`. -/
structure UserInfo where
  userId : String
  username : String
  color : String
  deriving DecidableEq, Repr

/-- The addressee of an emit. -/
inductive Target where
  /-- The case `socket.emit(...)`: this connection only. -/
  | socket (socketId : String)
  /-- The case `socket.to(roomId).emit(...)`: the room, the sender excluded. -/
  | others (roomId socketId : String)
  /-- The case `io.to(roomId).emit(...)`: the room, the sender included. -/
  | room (roomId : String)
  deriving DecidableEq, Repr

/-- The outbound messages, one constructor per payload shape. -/
inductive Message where
  | usernameAssigned (username : String)
  | usersUpdate (users : List UserInfo)
  | canvasStateSync (canvasData : JsVal) (version : Nat)
  | userJoined (userId username color socketId : String)
  | cursorMove (userId : String) (pos : JsVal)
  | drawing (data : List (String × JsVal))
  | canvasStateRelay (canvasData : JsVal) (userId : Option String)
  | clearCanvas (userId : Option String)
  | undo (userId username : Option String) (canvasData : JsVal)
  | redo (userId username : Option String) (canvasData : JsVal)
  | userLeft (userId username socketId : String)
  deriving DecidableEq, Repr

/-- The event name under which a message is emitted. -/
def Message.eventName : Message → String
  | .usernameAssigned _ => "username-assigned"
  | .usersUpdate _ => "users-update"
  | .canvasStateSync _ _ => "canvas-state"
  | .userJoined _ _ _ _ => "user-joined"
  | .cursorMove _ _ => "cursor-move"
  | .drawing _ => "drawing"
  | .canvasStateRelay _ _ => "canvas-state"
  | .clearCanvas _ => "clear-canvas"
  | .undo _ _ _ => "undo"
  | .redo _ _ _ => "redo"
  | .userLeft _ _ _ => "user-left"

/-- One call of `emit`. -/
structure Emit where
  target : Target
  msg : Message
  deriving DecidableEq, Repr

/-- The variables of one connection's closure; `none` is `null`.  `connected`
records whether the transport still delivers events for the connection. -/
structure Conn where
  connected : Bool
  currentRoom : Option String
  currentUserId : Option String
  currentUsername : Option String
  deriving DecidableEq, Repr

/-- The module state of `Server.js`, and the connections keyed by `socket.id`. -/
structure Server where
  roomManager : RoomManager
  drawingStateManager : DrawingStateManager
  roomUserCounters : List (String × Nat)
  sockets : List (String × Conn)
  deriving DecidableEq, Repr

/-- A JS value from a variable that is `null` or a string. -/
def optStr : Option String → JsVal
  | none => JsVal.null
  | some s => JsVal.str s

namespace Server

/-- The state at start-up. -/
def init : Server :=
  { roomManager := RoomManager.new, drawingStateManager := DrawingStateManager.new,
    roomUserCounters := [], sockets := [] }

/-- The closure variables when a connection is accepted. -/
def freshConn : Conn :=
  { connected := true, currentRoom := none, currentUserId := none, currentUsername := none }

/-- The counter map after `if (!roomUserCounters.has(roomId)) roomUserCounters.set(roomId, 1)`. -/
def ensureCounter (counters : List (String × Nat)) (roomId : String) : List (String × Nat) :=
  if mapHas counters roomId then counters else mapSet counters roomId 1

/-- The `users-update` array: `roomClients.map(...)` filtered by `u.userId !== userId`. -/
def otherUsers (roomClients : List Client) (userId : String) : List UserInfo :=
  (roomClients.map (fun c =>
    ({ userId := c.userId, username := c.username, color := c.color } : UserInfo))).filter
    (fun u => decide (u.userId ≠ userId))

/-- The emit of the stored canvas state to one connection, if there is one. -/
def canvasSync (d : DrawingStateManager) (socketId roomId : String) : List Emit :=
  match d.getState roomId with
  | some canvasState =>
    [{ target := Target.socket socketId,
       msg := Message.canvasStateSync canvasState.canvasData canvasState.version }]
  | none => []

/-- The handler of `join-room`; the payload's `username` is not used. -/
def onJoinRoom (s : Server) (socketId : String) (c : Conn)
    (roomId userId _username color : String) (now : Nat) : Server × Conn × List Emit :=
  let counters := ensureCounter s.roomUserCounters roomId
  let userNumber := (mapGet counters roomId).getD 0
  let currentUsername := "User" ++ toString userNumber
  let rm := (s.roomManager.addClient roomId userId socketId currentUsername color now).1
  let roomClients := rm.getRoomClients roomId
  ({ s with roomManager := rm, roomUserCounters := mapSet counters roomId (userNumber + 1) },
   { c with currentRoom := some roomId, currentUserId := some userId,
            currentUsername := some currentUsername },
   [{ target := Target.socket socketId, msg := Message.usernameAssigned currentUsername },
    { target := Target.socket socketId,
      msg := Message.usersUpdate (otherUsers roomClients userId) }]
   ++ canvasSync s.drawingStateManager socketId roomId
   ++ [{ target := Target.others roomId socketId,
         msg := Message.userJoined userId currentUsername color socketId }])

/-- The handler of `cursor-move`. -/
def onCursorMove (s : Server) (socketId : String) (c : Conn)
    (roomId userId : String) (pos : JsVal) : Server × Conn × List Emit :=
  if strTruthy c.currentRoom then
    ({ s with roomManager := (s.roomManager.updateCursorPosition roomId userId pos).1 }, c,
     [{ target := Target.others roomId socketId, msg := Message.cursorMove userId pos }])
  else (s, c, [])

/-- The handler of `drawing`: `{...data, userId: currentUserId, socketId: socket.id}`. -/
def onDrawing (s : Server) (socketId : String) (c : Conn) (data : List (String × JsVal)) :
    Server × Conn × List Emit :=
  match c.currentRoom with
  | some currentRoom =>
    if strTruthy (some currentRoom) then
      (s, c,
       [{ target := Target.others currentRoom socketId,
          msg := Message.drawing
            (mapSet (mapSet data "userId" (optStr c.currentUserId)) "socketId"
              (JsVal.str socketId)) }])
    else (s, c, [])
  | none => (s, c, [])

/-- The handler of `canvas-state`. -/
def onCanvasState (s : Server) (socketId : String) (c : Conn)
    (roomId : String) (canvasData : JsVal) (now : Nat) : Server × Conn × List Emit :=
  ({ s with
     drawingStateManager := s.drawingStateManager.saveState roomId canvasData now,
     roomManager := s.roomManager.setCanvasState roomId canvasData now }, c,
   [{ target := Target.others roomId socketId,
      msg := Message.canvasStateRelay canvasData c.currentUserId }])

/-- The handler of `request-canvas-state`. -/
def onRequestCanvasState (s : Server) (socketId : String) (c : Conn) (roomId : String) :
    Server × Conn × List Emit :=
  (s, c, canvasSync s.drawingStateManager socketId roomId)

/-- The handler of `clear-canvas`. -/
def onClearCanvas (s : Server) (_socketId : String) (c : Conn) (roomId : String) :
    Server × Conn × List Emit :=
  ({ s with drawingStateManager := s.drawingStateManager.clearState roomId }, c,
   [{ target := Target.room roomId, msg := Message.clearCanvas c.currentUserId }])

/-- The handler of `undo`. -/
def onUndo (s : Server) (_socketId : String) (c : Conn) (roomId : String)
    (canvasData : JsVal) : Server × Conn × List Emit :=
  (s, c,
   [{ target := Target.room roomId,
      msg := Message.undo c.currentUserId c.currentUsername canvasData }])

/-- The handler of `redo`. -/
def onRedo (s : Server) (_socketId : String) (c : Conn) (roomId : String)
    (canvasData : JsVal) : Server × Conn × List Emit :=
  (s, c,
   [{ target := Target.room roomId,
      msg := Message.redo c.currentUserId c.currentUsername canvasData }])

/-- The handler of `disconnect`. -/
def onDisconnect (s : Server) (socketId : String) (c : Conn) (now : Nat) :
    Server × Conn × List Emit :=
  match c.currentRoom with
  | some currentRoom =>
    if strTruthy (some currentRoom) then
      let r := s.roomManager.removeClient currentRoom socketId now
      ({ s with roomManager := r.1 }, c,
       match r.2 with
       | some client =>
         [{ target := Target.others currentRoom socketId,
            msg := Message.userLeft client.userId client.username socketId }]
       | none => [])
    else (s, c, [])
  | none => (s, c, [])

/-- The callback of `setInterval`: both sweeps with their default `maxAge`. -/
def onInterval (s : Server) (now : Nat) : Server :=
  { s with
    roomManager := s.roomManager.cleanupInactiveRooms RoomManager.defaultMaxAge now,
    drawingStateManager :=
      (s.drawingStateManager.cleanup DrawingStateManager.defaultMaxAge now).1 }

/-- The route `GET /api/rooms/:roomId`, which calls `getRoom`. -/
def onApiRoom (s : Server) (roomId : String) (now : Nat) : Server :=
  { s with roomManager := (s.roomManager.getRoom roomId now).1 }

end Server

/-- What the event loop can deliver to the server. -/
inductive Event where
  | connection (socketId : String)
  | joinRoom (socketId roomId userId username color : String)
  | cursorMove (socketId roomId userId : String) (pos : JsVal)
  | drawing (socketId : String) (data : List (String × JsVal))
  | canvasState (socketId roomId : String) (canvasData : JsVal)
  | requestCanvasState (socketId roomId : String)
  | clearCanvas (socketId roomId : String)
  | undo (socketId roomId : String) (canvasData : JsVal)
  | redo (socketId roomId : String) (canvasData : JsVal)
  | disconnect (socketId : String)
  | timer (k : Nat)
  | interval
  | apiRoom (roomId : String)
  deriving DecidableEq, Repr

namespace Server

/-- Run a handler on the connection `socketId`, provided the transport still
delivers its events, and store the closure variables back. -/
def onSocket (s : Server) (socketId : String)
    (handler : Conn → Server × Conn × List Emit) : Option (Server × List Emit) :=
  match mapGet s.sockets socketId with
  | none => none
  | some c =>
    if c.connected then
      let r := handler c
      some ({ r.1 with sockets := mapSet r.1.sockets socketId r.2.1 }, r.2.2)
    else none

/-- One turn of the event loop at clock reading `now`: the state afterwards and
the emits made, or `none` when the event cannot occur in this state (an event
on a connection that is not open, a connection id already used, a callback
that is not pending or not yet due). -/
def step (s : Server) (now : Nat) : Event → Option (Server × List Emit)
  | .connection socketId =>
    if mapHas s.sockets socketId then none
    else some ({ s with sockets := mapSet s.sockets socketId freshConn }, [])
  | .joinRoom socketId roomId userId username color =>
    s.onSocket socketId (fun c => s.onJoinRoom socketId c roomId userId username color now)
  | .cursorMove socketId roomId userId pos =>
    s.onSocket socketId (fun c => s.onCursorMove socketId c roomId userId pos)
  | .drawing socketId data => s.onSocket socketId (fun c => s.onDrawing socketId c data)
  | .canvasState socketId roomId canvasData =>
    s.onSocket socketId (fun c => s.onCanvasState socketId c roomId canvasData now)
  | .requestCanvasState socketId roomId =>
    s.onSocket socketId (fun c => s.onRequestCanvasState socketId c roomId)
  | .clearCanvas socketId roomId =>
    s.onSocket socketId (fun c => s.onClearCanvas socketId c roomId)
  | .undo socketId roomId canvasData =>
    s.onSocket socketId (fun c => s.onUndo socketId c roomId canvasData)
  | .redo socketId roomId canvasData =>
    s.onSocket socketId (fun c => s.onRedo socketId c roomId canvasData)
  | .disconnect socketId =>
    s.onSocket socketId (fun c =>
      let r := s.onDisconnect socketId c now
      (r.1, { r.2.1 with connected := false }, r.2.2))
  | .timer k =>
    match s.roomManager.timers[k]? with
    | none => none
    | some t =>
      if t.due ≤ now then some ({ s with roomManager := s.roomManager.fireTimer k now }, [])
      else none
  | .interval => some (s.onInterval now, [])
  | .apiRoom roomId => some (s.onApiRoom roomId now, [])

/-- The state after a sequence of timestamped events, when each can occur. -/
def run : Server → List (Nat × Event) → Option Server
  | s, [] => some s
  | s, (now, ev) :: rest =>
    match s.step now ev with
    | none => none
    | some r => run r.1 rest

end Server

/-! ## Sequences of saves -/

namespace DrawingStateManager

/-- A sequence of `saveState` calls, each with its room id, blob and clock reading. -/
def saveAll (m : DrawingStateManager) (ops : List (String × JsVal × Nat)) :
    DrawingStateManager :=
  ops.foldl (fun acc op => acc.saveState op.1 op.2.1 op.2.2) m

/-- The saves of a sequence that go to room `r`. -/
def savesTo (r : String) (ops : List (String × JsVal × Nat)) : List (String × JsVal × Nat) :=
  ops.filter (fun op => decide (op.1 = r))

/-- The version of `r` in the store, `0` when `r` has no stored state. -/
def versionOf (m : DrawingStateManager) (r : String) : Nat :=
  match m.getState r with
  | some st => st.version
  | none => 0

end DrawingStateManager

/-! ## Notions used in the statements -/

/-- The number the next `join-room` naming `r` hands out: `roomUserCounters.get(r)`
after the counter has been initialised. -/
def Server.nextNumber (counters : List (String × Nat)) (r : String) : Nat :=
  (mapGet (Server.ensureCounter counters r) r).getD 0

/-- Whether an event is a `join-room` naming room `r`. -/
def Event.joinsRoom (r : String) : Event → Bool
  | .joinRoom _ roomId _ _ _ => decide (roomId = r)
  | _ => false

/-- The number of `join-room` events naming room `r` in a sequence of events. -/
def joinCount (r : String) (tr : List (Nat × Event)) : Nat :=
  (tr.filter (fun e => e.2.joinsRoom r)).length

/-- The emits of a turn that carry the event name `name`. -/
def emitsNamed (name : String) (out : List Emit) : List Emit :=
  out.filter (fun e => decide (e.msg.eventName = name))

/-- A registry with a room "a" holding one client and an empty room "b", both
last active at clock reading 0. -/
def exampleRegistry : RoomManager :=
  RoomManager.new.exec
    [(0, RegOp.addClient "a" "u1" "c1" "User1" "red"), (0, RegOp.getRoom "b")]

/-- Connection "A" joins room "r1" and publishes blob "X"; connection "C" is accepted. -/
def exampleTrace : List (Nat × Event) :=
  [(0, Event.connection "A"), (1, Event.joinRoom "A" "r1" "uA" "" "red"),
   (2, Event.canvasState "A" "r1" (JsVal.str "X")), (3, Event.connection "C")]

/-- The server after `exampleTrace`. -/
def exampleServer : Server :=
  (Server.init.run exampleTrace).getD Server.init

/-- The turn in which connection "C" joins room "r1" of `exampleServer`. -/
def exampleJoin : Server × List Emit :=
  (exampleServer.step 4 (Event.joinRoom "C" "r1" "uC" "" "blue")).getD (exampleServer, [])

/-- A client stays in room "r" for over an hour and leaves 10 s before a sweep;
the sweep deletes the room; another client joins "r" 10 s later. -/
def staleTimerOps : List (Nat × RegOp) :=
  [(0, RegOp.addClient "r" "u1" "c1" "User1" "red"),
   (3890000, RegOp.removeClient "r" "c1"),
   (3900000, RegOp.cleanupInactiveRooms RoomManager.defaultMaxAge),
   (3910000, RegOp.addClient "r" "u2" "c2" "User2" "blue")]

/-- The keys of `this.rooms` are pairwise distinct, as in every JS `Map`. -/
def RoomManager.WF (m : RoomManager) : Prop :=
  (mapKeys m.rooms).Nodup

/-- In the execution `pre` from the empty registry, the membership of room `r`
became empty at clock reading `t`: a `removeClient r` called at `t` found
members in `r` and left none. -/
def RoomManager.emptiedAt (pre : List (Nat × RegOp)) (r : String) (t : Nat) : Prop :=
  ∃ p1 c p2, pre = p1 ++ (t, RegOp.removeClient r c) :: p2 ∧
    (RoomManager.new.exec p1).getRoomClients r ≠ [] ∧
    ((RoomManager.new.exec p1).apply t (RegOp.removeClient r c)).getRoomClients r = []

/-- A client joins room "r", stays two hours and leaves. -/
def earlySweepOps : List (Nat × RegOp) :=
  [(0, RegOp.addClient "r" "u1" "c1" "User1" "red"),
   (7200000, RegOp.removeClient "r" "c1")]

/-- Room "r" empties at 1 s, is joined again at 10 s and empties again at 50 s. -/
def earlyTimerOps : List (Nat × RegOp) :=
  [(0, RegOp.addClient "r" "u1" "c1" "User1" "red"),
   (1000, RegOp.removeClient "r" "c1"),
   (10000, RegOp.addClient "r" "u2" "c2" "User2" "blue"),
   (50000, RegOp.removeClient "r" "c2")]

/-- The connection ids of a list of membership records. -/
def socketIds (l : List Client) : List String :=
  l.map (fun c => c.socketId)

/-- The connection on which a `join-room` event arrives. -/
def Event.joiner : Event → Option String
  | .joinRoom socketId _ _ _ _ => some socketId
  | _ => none

/-- The connection and the room of a `join-room` event. -/
def Event.joinPair : Event → Option (String × String)
  | .joinRoom socketId roomId _ _ _ => some (socketId, roomId)
  | _ => none

/-- The (connection, room) pairs of the `join-room` events of a sequence, in order. -/
def joinPairs (tr : List (Nat × Event)) : List (String × String) :=
  tr.filterMap (fun e => e.2.joinPair)

/-- The room named by an event when it is a `join-room` on connection `sid`. -/
def Event.joinedRoom (sid : String) : Event → Option String
  | .joinRoom socketId roomId _ _ _ => if socketId = sid then some roomId else none
  | _ => none

/-- The rooms named by the `join-room` events of connection `sid`, in order. -/
def joinedRooms (sid : String) (tr : List (Nat × Event)) : List String :=
  tr.filterMap (fun e => e.2.joinedRoom sid)

/-- Whether a registry call is an `addClient`. -/
def RegOp.isAdd : RegOp → Bool
  | .addClient _ _ _ _ _ => true
  | _ => false

/-- The registry `m2` has, in every room, a sublist of the connection ids that
`m` has there, and its keys are distinct if those of `m` are. -/
def RoomManager.Shrinks (m m2 : RoomManager) : Prop :=
  (m.WF → m2.WF) ∧
  ∀ r, (socketIds (m2.getRoomClients r)).Sublist (socketIds (m.getRoomClients r))

/-- Connection "s1" joins room "a" and then room "b", and disconnects. -/
def rejoinTrace : List (Nat × Event) :=
  [(0, Event.connection "s1"), (1, Event.joinRoom "s1" "a" "u" "" "red"),
   (2, Event.joinRoom "s1" "b" "u" "" "red"), (3, Event.disconnect "s1")]

/-- Connection "s1" joins the room with the empty id, and disconnects. -/
def emptyRoomIdTrace : List (Nat × Event) :=
  [(0, Event.connection "s1"), (1, Event.joinRoom "s1" "" "u" "" "red"),
   (2, Event.disconnect "s1")]

/-- Connection "s1" joins room "a" twice. -/
def doubleJoinTrace : List (Nat × Event) :=
  [(0, Event.connection "s1"), (1, Event.joinRoom "s1" "a" "u" "" "red"),
   (2, Event.joinRoom "s1" "a" "u" "" "red")]

/-- Connections "s1" and "s2" join room "a"; "s1" disconnects. -/
def twoClientsTrace : List (Nat × Event) :=
  [(0, Event.connection "s1"), (1, Event.connection "s2"),
   (2, Event.joinRoom "s1" "a" "u1" "" "red"), (3, Event.joinRoom "s2" "a" "u2" "" "blue"),
   (4, Event.cursorMove "s2" "a" "u2" (JsVal.num 7))]

/-- In every room `r` of the registry the connection ids are pairwise distinct,
and each of them, paired with `r`, is in `P`. -/
def RoomManager.IdsFrom (P : List (String × String)) (m : RoomManager) : Prop :=
  ∀ r, (socketIds (m.getRoomClients r)).Nodup ∧
    ∀ x ∈ socketIds (m.getRoomClients r), (x, r) ∈ P

/-- Connection "s1" joins room "a" and then room "b"; connection "s2" joins
room "a" and then room "b". -/
def roomSwitchTrace : List (Nat × Event) :=
  [(0, Event.connection "s1"), (1, Event.connection "s2"),
   (2, Event.joinRoom "s1" "a" "u1" "" "red"), (3, Event.joinRoom "s2" "a" "u2" "" "blue"),
   (4, Event.joinRoom "s1" "b" "u1" "" "red"), (5, Event.joinRoom "s2" "b" "u2" "" "blue")]

/-- Where the records of connection `sid` are, given the rooms `joined` that its
`join-room` events have named so far: nowhere before it joins; after one join,
at most once in the room it joined, which is its `currentRoom`.  Nothing is
recorded about a connection that joined more than once. -/
def Server.Tracks (sid : String) (joined : List String) (s : Server) : Prop :=
  match joined with
  | [] => ∀ r, sid ∉ socketIds (s.roomManager.getRoomClients r)
  | [r0] =>
    (∃ c, mapGet s.sockets sid = some c ∧ c.currentRoom = some r0) ∧
    (∀ r, r ≠ r0 → sid ∉ socketIds (s.roomManager.getRoomClients r)) ∧
    (socketIds (s.roomManager.getRoomClients r0)).count sid ≤ 1
  | _ :: _ :: _ => True

/-- One turn of `exampleServer` at clock reading 4, for use at concrete events. -/
def exampleStep (ev : Event) : Server × List Emit :=
  (exampleServer.step 4 ev).getD (exampleServer, [])

/-- The `currentUserId` of connection `socketId`, `none` being `null`. -/
def Server.userIdOf (s : Server) (socketId : String) : Option String :=
  (mapGet s.sockets socketId).bind (fun c => c.currentUserId)

/-- The `currentUsername` of connection `socketId`, `none` being `null`. -/
def Server.usernameOf (s : Server) (socketId : String) : Option String :=
  (mapGet s.sockets socketId).bind (fun c => c.currentUsername)

/-- The `currentRoom` of connection `socketId`, `none` being `null`. -/
def Server.roomOf (s : Server) (socketId : String) : Option String :=
  (mapGet s.sockets socketId).bind (fun c => c.currentRoom)

/-- The message of an `undo` or `redo` broadcast: it has the event's own name. -/
def undoRedoMessage (ev : Event) (userId username : Option String) (b : JsVal) : Message :=
  match ev with
  | Event.redo _ _ _ => Message.redo userId username b
  | _ => Message.undo userId username b

/-- Whether a registry call is one of `getRoom`, `addClient`, `setCanvasState`. -/
def RegOp.creates : RegOp → Bool
  | .getRoom _ => true
  | .addClient _ _ _ _ _ => true
  | .setCanvasState _ _ => true
  | _ => false

/-- A registry whose room "a" holds users "u1", "u2" and again "u1". -/
def cursorRegistry : RoomManager :=
  RoomManager.new.exec
    [(0, RegOp.addClient "a" "u1" "c1" "User1" "red"),
     (1, RegOp.addClient "a" "u2" "c2" "User2" "blue"),
     (2, RegOp.addClient "a" "u1" "c3" "User3" "green")]

/-- Connection "s1" joins room "a" as "u1" and connection "s2" joins room "b" as "u2". -/
def crossRoomTrace : List (Nat × Event) :=
  [(0, Event.connection "s1"), (1, Event.connection "s2"),
   (2, Event.joinRoom "s1" "a" "u1" "" "red"), (3, Event.joinRoom "s2" "b" "u2" "" "blue")]

/-- The server after `crossRoomTrace`. -/
def crossRoomServer : Server :=
  (Server.init.run crossRoomTrace).getD Server.init

/-- One turn of `crossRoomServer` at clock reading 5. -/
def crossRoomStep (ev : Event) : Server × List Emit :=
  (crossRoomServer.step 5 ev).getD (crossRoomServer, [])

/-- The test of the loop of `DrawingStateManager.cleanup`. -/
def DrawingStateManager.stale (maxAge : Int) (now : Nat) (state : CanvasState) : Bool :=
  decide ((now : Int) - (state.timestamp : Int) > maxAge)

/-- A store with a state for "old" saved at clock reading 0 and one for "new"
saved at clock reading 90000000. -/
def exampleStore : DrawingStateManager :=
  DrawingStateManager.new.saveAll
    [("old", JsVal.str "X", 0), ("new", JsVal.str "Y", 90000000)]

/-- A client record reduced to `{userId, username, color}`. -/
def Client.info (c : Client) : UserInfo :=
  { userId := c.userId, username := c.username, color := c.color }

/-- The members of room `r` whose `userId` differs from `u`, each reduced to
`{userId, username, color}`, in membership order. -/
def membersOtherThan (m : RoomManager) (r u : String) : List UserInfo :=
  ((m.getRoomClients r).filter (fun c => decide (c.userId ≠ u))).map Client.info

/-- The server after connection "s1" joined the room with the empty id as "u". -/
def emptyRoomServer : Server :=
  (Server.init.run
    [(0, Event.connection "s1"), (1, Event.joinRoom "s1" "" "u" "" "red")]).getD Server.init

/-- The payload of a `drawing` event after the handler stamped it:
`{...data, userId: currentUserId, socketId: socket.id}`. -/
def stampedDrawing (data : List (String × JsVal)) (userId : Option String)
    (socketId : String) : List (String × JsVal) :=
  mapSet (mapSet data "userId" (optStr userId)) "socketId" (JsVal.str socketId)

/-- A `drawing` payload that carries its own `userId`, `socketId` and `roomId`. -/
def spoofedDrawing : List (String × JsVal) :=
  [("x", JsVal.num 1), ("userId", JsVal.str "uZ"), ("socketId", JsVal.str "Z"),
   ("roomId", JsVal.str "r9"), ("y", JsVal.num 2)]

/-! ## Lemmas on maps -/

theorem mapGet_mapSet_same {α : Type} (m : List (String × α)) (k : String) (v : α) :
    mapGet (mapSet m k v) k = some v := by
  induction m with
  | nil => simp [mapSet, mapGet]
  | cons e rest ih =>
    obtain ⟨k', v'⟩ := e
    by_cases h : k' = k
    · simp [mapSet, mapGet, h]
    · simp [mapSet, mapGet, h, ih]

theorem mapGet_mapSet_ne {α : Type} (m : List (String × α)) (k k2 : String) (v : α)
    (hne : k ≠ k2) : mapGet (mapSet m k v) k2 = mapGet m k2 := by
  induction m with
  | nil => simp [mapSet, mapGet, hne]
  | cons e rest ih =>
    obtain ⟨k', v'⟩ := e
    by_cases h : k' = k
    · subst h
      simp [mapSet, mapGet, hne]
    · by_cases h2 : k' = k2
      · subst h2
        simp [mapSet, mapGet, h]
      · simp [mapSet, mapGet, h, h2, ih]

theorem mapGet_mapDelete_same {α : Type} (m : List (String × α)) (k : String) :
    mapGet (mapDelete m k) k = none := by
  induction m with
  | nil => simp [mapDelete, mapGet]
  | cons e rest ih =>
    obtain ⟨k', v'⟩ := e
    by_cases h : k' = k
    · simpa [mapDelete, List.filter_cons, h] using ih
    · simpa [mapDelete, List.filter_cons, h, mapGet] using ih

theorem mapGet_mapDelete_ne {α : Type} (m : List (String × α)) (k k2 : String)
    (hne : k ≠ k2) : mapGet (mapDelete m k) k2 = mapGet m k2 := by
  induction m with
  | nil => simp [mapDelete, mapGet]
  | cons e rest ih =>
    obtain ⟨k', v'⟩ := e
    by_cases h : k' = k
    · subst h
      simpa [mapDelete, List.filter_cons, mapGet, hne] using ih
    · by_cases h2 : k' = k2
      · subst h2
        simp [mapDelete, List.filter_cons, h, mapGet]
      · simpa [mapDelete, List.filter_cons, h, mapGet, h2] using ih

/-! ## The canvas-state store -/

namespace DrawingStateManager

theorem versionOrZero_eq_versionOf (m : DrawingStateManager) (r : String) :
    m.versionOrZero r = m.versionOf r := by
  unfold versionOrZero versionOf getState
  cases h : mapGet m.states r with
  | none => rfl
  | some st =>
    by_cases h0 : st.version = 0
    · simp [h0]
    · simp [h0]

theorem getState_saveState_same (m : DrawingStateManager) (r : String) (b : JsVal) (now : Nat) :
    (m.saveState r b now).getState r
      = some { canvasData := b, timestamp := now, version := m.versionOf r + 1 } := by
  simp [saveState, getState, mapGet_mapSet_same, versionOrZero_eq_versionOf]

theorem getState_saveState_ne (m : DrawingStateManager) (r r2 : String) (b : JsVal) (now : Nat)
    (hne : r ≠ r2) : (m.saveState r b now).getState r2 = m.getState r2 := by
  simp [saveState, getState, mapGet_mapSet_ne _ _ _ _ hne]

theorem getState_saveAll (r : String) (ops : List (String × JsVal × Nat)) :
    ∀ m : DrawingStateManager,
      (m.saveAll ops).getState r =
        match (savesTo r ops).getLast? with
        | none => m.getState r
        | some op =>
          some { canvasData := op.2.1, timestamp := op.2.2,
                 version := m.versionOf r + (savesTo r ops).length } := by
  induction ops with
  | nil => intro m; simp [saveAll, savesTo]
  | cons op ops ih =>
    intro m
    have hstep : m.saveAll (op :: ops) = (m.saveState op.1 op.2.1 op.2.2).saveAll ops := by
      simp [saveAll]
    rw [hstep, ih]
    by_cases h : op.1 = r
    · have hf : savesTo r (op :: ops) = op :: savesTo r ops := by
        simp [savesTo, List.filter_cons, h]
      have hv : (m.saveState op.1 op.2.1 op.2.2).versionOf r = m.versionOf r + 1 := by
        subst h
        simp [versionOf, getState_saveState_same]
      rw [hf]
      cases hl : (savesTo r ops).getLast? with
      | none =>
        have hnil : savesTo r ops = [] := by simpa using hl
        subst h
        simp [hnil, getState_saveState_same]
      | some o =>
        have hne : savesTo r ops ≠ [] := by
          intro hnil; simp [hnil] at hl
        obtain ⟨x, xs, hx⟩ := List.exists_cons_of_ne_nil hne
        have hl2 : (op :: savesTo r ops).getLast? = some o := by
          rw [hx, List.getLast?_cons_cons, ← hx]; exact hl
        simp [hl2, hv]; omega
    · have hf : savesTo r (op :: ops) = savesTo r ops := by
        simp [savesTo, List.filter_cons, h]
      have hg : (m.saveState op.1 op.2.1 op.2.2).getState r = m.getState r :=
        getState_saveState_ne _ _ _ _ _ h
      have hv : (m.saveState op.1 op.2.1 op.2.2).versionOf r = m.versionOf r := by
        simp [versionOf, hg]
      rw [hf, hg, hv]

end DrawingStateManager

/-- C1: after a sequence of saves of which `N ≥ 1` go to room `r` (saves to other
rooms interleaved), `getState r` holds version `v0 + N`, where `v0` is the
version `r` had before (`0` if it had none), and the blob of the last save to
`r`; from a store without a state for `r` the version is `N`. -/
theorem saveState_sequence_version (m : DrawingStateManager) (r : String)
    (ops : List (String × JsVal × Nat))
    (hN : 1 ≤ (DrawingStateManager.savesTo r ops).length) :
    ∃ st last,
      (m.saveAll ops).getState r = some st ∧
      (DrawingStateManager.savesTo r ops).getLast? = some last ∧
      st.version = m.versionOf r + (DrawingStateManager.savesTo r ops).length ∧
      st.canvasData = last.2.1 ∧
      (m.getState r = none → st.version = (DrawingStateManager.savesTo r ops).length) := by
  have hne : DrawingStateManager.savesTo r ops ≠ [] := by
    intro h; simp [h] at hN
  cases hl : (DrawingStateManager.savesTo r ops).getLast? with
  | none => simp at hl; exact absurd hl hne
  | some last =>
    refine ⟨{ canvasData := last.2.1, timestamp := last.2.2,
              version := m.versionOf r + (DrawingStateManager.savesTo r ops).length },
      last, ?_, rfl, rfl, rfl, ?_⟩
    · rw [DrawingStateManager.getState_saveAll, hl]
    · intro hnone
      simp [DrawingStateManager.versionOf, hnone]

/-- C1 at a concrete input: blobs "X" then "Y" saved to "r1" with a save to
"r2" in between, from the empty store. -/
theorem saveState_sequence_version_witness :
    1 ≤ (DrawingStateManager.savesTo "r1"
          [("r1", JsVal.str "X", 10), ("r2", JsVal.str "Z", 11),
           ("r1", JsVal.str "Y", 12)]).length ∧
    ∃ st last,
      (DrawingStateManager.new.saveAll
          [("r1", JsVal.str "X", 10), ("r2", JsVal.str "Z", 11),
           ("r1", JsVal.str "Y", 12)]).getState "r1" = some st ∧
      (DrawingStateManager.savesTo "r1"
          [("r1", JsVal.str "X", 10), ("r2", JsVal.str "Z", 11),
           ("r1", JsVal.str "Y", 12)]).getLast? = some last ∧
      st.version = DrawingStateManager.new.versionOf "r1" +
        (DrawingStateManager.savesTo "r1"
          [("r1", JsVal.str "X", 10), ("r2", JsVal.str "Z", 11),
           ("r1", JsVal.str "Y", 12)]).length ∧
      st.canvasData = last.2.1 ∧
      (DrawingStateManager.new.getState "r1" = none → st.version =
        (DrawingStateManager.savesTo "r1"
          [("r1", JsVal.str "X", 10), ("r2", JsVal.str "Z", 11),
           ("r1", JsVal.str "Y", 12)]).length) :=
  ⟨by decide, saveState_sequence_version DrawingStateManager.new "r1" _ (by decide)⟩

/-- C6: after `clearState r`, `getState r` and `getStateMetadata r` are `null`,
the next `saveState r b` stores version 1 with blob `b` whatever was stored
before, and the state of every other room is as before the clear. -/
theorem clearState_restarts_versioning (m : DrawingStateManager) (r : String) (b : JsVal)
    (now now2 : Nat) :
    (m.clearState r).getState r = none ∧
    (m.clearState r).getStateMetadata r now2 = none ∧
    ((m.clearState r).saveState r b now).getState r
      = some { canvasData := b, timestamp := now, version := 1 } ∧
    ∀ r2, (m.clearState r).getState r2 = if r2 = r then none else m.getState r2 := by
  have h1 : (m.clearState r).getState r = none := by
    simp [DrawingStateManager.clearState, DrawingStateManager.getState, mapGet_mapDelete_same]
  refine ⟨h1, ?_, ?_, ?_⟩
  · have h1b : mapGet (m.clearState r).states r = none := h1
    simp [DrawingStateManager.getStateMetadata, h1b]
  · rw [DrawingStateManager.getState_saveState_same]
    simp [DrawingStateManager.versionOf, h1]
  · intro r2
    by_cases h : r2 = r
    · subst h; simp [h1]
    · simp [h, DrawingStateManager.clearState, DrawingStateManager.getState,
        mapGet_mapDelete_ne _ _ _ (Ne.symm h)]

/-! ## The room registry -/

namespace RoomManager

theorem getRoom_rooms_same (m : RoomManager) (r : String) (now : Nat) :
    mapGet (m.getRoom r now).1.rooms r = some (m.getRoom r now).2 := by
  unfold getRoom
  cases h : mapGet m.rooms r with
  | none => simp [mapGet_mapSet_same]
  | some room => simp [h]

theorem getRoom_rooms_ne (m : RoomManager) (r r2 : String) (now : Nat) (hne : r ≠ r2) :
    mapGet (m.getRoom r now).1.rooms r2 = mapGet m.rooms r2 := by
  unfold getRoom
  cases h : mapGet m.rooms r with
  | none => simp [mapGet_mapSet_ne _ _ _ _ hne]
  | some room => simp

theorem getRoom_clients (m : RoomManager) (r : String) (now : Nat) :
    (m.getRoom r now).2.clients = m.getRoomClients r := by
  unfold getRoom getRoomClients
  cases h : mapGet m.rooms r with
  | none => simp
  | some room => simp

theorem getRoomClients_addClient_same (m : RoomManager) (r u c name color : String)
    (now : Nat) :
    (m.addClient r u c name color now).1.getRoomClients r
      = m.getRoomClients r ++
        [{ userId := u, socketId := c, username := name, color := color,
           cursorPos := JsVal.null }] := by
  simp [addClient, getRoomClients, mapGet_mapSet_same, getRoom_clients]

theorem getRoomClients_addClient_ne (m : RoomManager) (r r2 u c name color : String)
    (now : Nat) (hne : r ≠ r2) :
    (m.addClient r u c name color now).1.getRoomClients r2 = m.getRoomClients r2 := by
  simp [addClient, getRoomClients, mapGet_mapSet_ne _ _ _ _ hne, getRoom_rooms_ne _ _ _ _ hne]

theorem removeClient_absent (m : RoomManager) (r c : String) (now : Nat)
    (h : mapGet m.rooms r = none) : m.removeClient r c now = (m, none) := by
  simp [removeClient, h]

theorem removeClient_miss (m : RoomManager) (r c : String) (now : Nat) (room : Room)
    (h : mapGet m.rooms r = some room)
    (hf : room.clients.find? (fun cl => decide (cl.socketId = c)) = none) :
    m.removeClient r c now = (m, none) := by
  simp [removeClient, h, hf]

theorem removeClient_hit (m : RoomManager) (r c : String) (now : Nat) (room : Room)
    (client : Client) (h : mapGet m.rooms r = some room)
    (hf : room.clients.find? (fun cl => decide (cl.socketId = c)) = some client) :
    m.removeClient r c now =
      ({ m with
         rooms := mapSet m.rooms r
           { room with clients := room.clients.eraseP (fun cl => decide (cl.socketId = c)) },
         timers :=
           if (room.clients.eraseP (fun cl => decide (cl.socketId = c))).length = 0 then
             m.timers ++ [{ due := now + deletionDelay, roomId := r, room := room.ref }]
           else m.timers },
       some client) := by
  simp [removeClient, h, hf]

theorem removeClient_result (m : RoomManager) (r c : String) (now : Nat) :
    (m.removeClient r c now).2
      = (m.getRoomClients r).find? (fun cl => decide (cl.socketId = c)) := by
  cases h : mapGet m.rooms r with
  | none => simp [removeClient_absent _ _ _ _ h, getRoomClients, h]
  | some room =>
    cases hf : room.clients.find? (fun cl => decide (cl.socketId = c)) with
    | none => simp [removeClient_miss _ _ _ _ _ h hf, getRoomClients, h, hf]
    | some cl => simp [removeClient_hit _ _ _ _ _ _ h hf, getRoomClients, h, hf]

theorem getRoomClients_removeClient_same (m : RoomManager) (r c : String) (now : Nat) :
    (m.removeClient r c now).1.getRoomClients r
      = (m.getRoomClients r).eraseP (fun cl => decide (cl.socketId = c)) := by
  cases h : mapGet m.rooms r with
  | none => simp [removeClient_absent _ _ _ _ h, getRoomClients, h]
  | some room =>
    cases hf : room.clients.find? (fun cl => decide (cl.socketId = c)) with
    | none =>
      have hn : ∀ cl ∈ room.clients, ¬ (decide (cl.socketId = c) = true) := by
        intro cl hcl
        have := List.find?_eq_none.1 hf cl hcl
        simpa using this
      simp [removeClient_miss _ _ _ _ _ h hf, getRoomClients, h, List.eraseP_of_forall_not hn]
    | some cl =>
      simp [removeClient_hit _ _ _ _ _ _ h hf, getRoomClients, h, mapGet_mapSet_same]

theorem getRoomClients_removeClient_ne (m : RoomManager) (r r2 c : String) (now : Nat)
    (hne : r ≠ r2) :
    (m.removeClient r c now).1.getRoomClients r2 = m.getRoomClients r2 := by
  cases h : mapGet m.rooms r with
  | none => simp [removeClient_absent _ _ _ _ h]
  | some room =>
    cases hf : room.clients.find? (fun cl => decide (cl.socketId = c)) with
    | none => simp [removeClient_miss _ _ _ _ _ h hf]
    | some cl =>
      simp [removeClient_hit _ _ _ _ _ _ h hf, getRoomClients, mapGet_mapSet_ne _ _ _ _ hne]

end RoomManager

/-- C5: when no client of `r` carries connection id `c`, `addClient` followed by
`removeClient r c` returns the record that was inserted (its `userId` is `u`
and its `username` is `name`), and a second `removeClient r c` returns `null`. -/
theorem addClient_removeClient_roundtrip (m : RoomManager) (r u c name color : String)
    (now1 now2 now3 : Nat)
    (hfresh : ∀ cl ∈ m.getRoomClients r, cl.socketId ≠ c) :
    (∃ cl, ((m.addClient r u c name color now1).1.removeClient r c now2).2 = some cl ∧
        cl.userId = u ∧ cl.username = name ∧ cl.socketId = c) ∧
    ((((m.addClient r u c name color now1).1.removeClient r c now2).1).removeClient
        r c now3).2 = none := by
  have hn : ∀ cl ∈ m.getRoomClients r, ¬ (decide (cl.socketId = c) = true) := by
    intro cl hcl; simpa using hfresh cl hcl
  have hfind : (m.getRoomClients r).find? (fun cl => decide (cl.socketId = c)) = none :=
    List.find?_eq_none.2 hn
  constructor
  · refine ⟨{ userId := u, socketId := c, username := name, color := color,
              cursorPos := JsVal.null }, ?_, rfl, rfl, rfl⟩
    rw [RoomManager.removeClient_result, RoomManager.getRoomClients_addClient_same]
    simp [List.find?_append, hfind]
  · rw [RoomManager.removeClient_result, RoomManager.getRoomClients_removeClient_same,
      RoomManager.getRoomClients_addClient_same, List.eraseP_append_right _ hn]
    simp [List.eraseP_cons, hfind]

/-- C5 at a concrete input: a first client of a room of the empty registry. -/
theorem addClient_removeClient_roundtrip_witness :
    (∀ cl ∈ RoomManager.new.getRoomClients "r1", cl.socketId ≠ "c1") ∧
    (∃ cl, ((RoomManager.new.addClient "r1" "u1" "c1" "User1" "red" 5).1.removeClient
          "r1" "c1" 6).2 = some cl ∧
        cl.userId = "u1" ∧ cl.username = "User1" ∧ cl.socketId = "c1") ∧
    ((((RoomManager.new.addClient "r1" "u1" "c1" "User1" "red" 5).1.removeClient
          "r1" "c1" 6).1).removeClient "r1" "c1" 7).2 = none :=
  ⟨by decide,
   addClient_removeClient_roundtrip RoomManager.new "r1" "u1" "c1" "User1" "red" 5 6 7
     (by decide)⟩

namespace RoomManager

theorem mapDelete_of_mapGet_none {α : Type} (l : List (String × α)) (k : String)
    (h : mapGet l k = none) : mapDelete l k = l := by
  induction l with
  | nil => rfl
  | cons e rest ih =>
    obtain ⟨k', v⟩ := e
    by_cases hk : k' = k
    · simp [mapGet, hk] at h
    · simp only [mapGet, hk, if_false] at h
      have := ih h
      simp only [mapDelete] at this ⊢
      rw [List.filter_cons_of_pos (by simpa using hk), this]

theorem deleteRoom_rooms (m : RoomManager) (r : String) :
    (m.deleteRoom r).rooms = mapDelete m.rooms r := by
  unfold deleteRoom
  cases h : mapGet m.rooms r with
  | none => simp [mapDelete_of_mapGet_none _ _ h]
  | some room => simp

theorem deleteRoom_timers (m : RoomManager) (r : String) :
    (m.deleteRoom r).timers = m.timers := by
  unfold deleteRoom
  cases h : mapGet m.rooms r with
  | none => simp
  | some room => simp

theorem foldl_cleanupRoomStep_rooms (maxAge : Int) (now : Nat) (es : List (String × Room)) :
    ∀ acc : RoomManager,
      (es.foldl (cleanupRoomStep maxAge now) acc).rooms =
        acc.rooms.filter (fun e =>
          !(es.any (fun d => inactive maxAge now d.2 && decide (d.1 = e.1)))) := by
  induction es with
  | nil => intro acc; simp
  | cons d es ih =>
    intro acc
    rw [List.foldl_cons, ih]
    by_cases hd : inactive maxAge now d.2 = true
    · simp only [cleanupRoomStep, hd, if_true, deleteRoom_rooms, mapDelete, List.filter_filter]
      apply List.filter_congr
      intro e _
      by_cases hk : d.1 = e.1
      · simp [hk, hd]
      · have hk2 : ¬ e.1 = d.1 := fun h => hk h.symm
        simp [hk, hk2, hd]
    · have hd2 : inactive maxAge now d.2 = false := by simpa using hd
      simp only [cleanupRoomStep, hd2]
      apply List.filter_congr
      intro e _
      simp [hd2]

theorem mem_of_mapGet {α : Type} (l : List (String × α)) (k : String) (v : α)
    (h : mapGet l k = some v) : (k, v) ∈ l := by
  induction l with
  | nil => simp [mapGet] at h
  | cons e rest ih =>
    obtain ⟨k', v'⟩ := e
    by_cases hk : k' = k
    · simp [mapGet, hk] at h
      simp [hk, h]
    · simp only [mapGet, hk, if_false] at h
      exact List.mem_cons_of_mem _ (ih h)

theorem mapGet_of_mem {α : Type} (l : List (String × α)) (k : String) (v : α)
    (hnd : (mapKeys l).Nodup) (h : (k, v) ∈ l) : mapGet l k = some v := by
  induction l with
  | nil => simp at h
  | cons e rest ih =>
    obtain ⟨k', v'⟩ := e
    simp only [mapKeys, List.map_cons, List.nodup_cons] at hnd
    rcases List.mem_cons.1 h with heq | hmem
    · cases heq
      simp [mapGet]
    · have hk : k' ≠ k := by
        intro hk
        apply hnd.1
        subst hk
        exact List.mem_map.2 ⟨(k', v), hmem, rfl⟩
      simp only [mapGet, hk, if_false]
      exact ih hnd.2 hmem

theorem mapGet_filter {α : Type} (l : List (String × α)) (p : α → Bool) (k : String)
    (hnd : (mapKeys l).Nodup) :
    mapGet (l.filter (fun e => p e.2)) k = (mapGet l k).filter p := by
  induction l with
  | nil => simp [mapGet]
  | cons e rest ih =>
    obtain ⟨k', v'⟩ := e
    simp only [mapKeys, List.map_cons, List.nodup_cons] at hnd
    have ih2 := ih hnd.2
    by_cases hk : k' = k
    · subst hk
      have hrest : mapGet rest k' = none := by
        cases hg : mapGet rest k' with
        | none => rfl
        | some v =>
          exact absurd (List.mem_map.2 ⟨(k', v), mem_of_mapGet _ _ _ hg, rfl⟩) hnd.1
      by_cases hp : p v' = true
      · simp [List.filter_cons, hp, mapGet, Option.filter]
      · have hp2 : p v' = false := by simpa using hp
        simp [List.filter_cons, hp2, mapGet, Option.filter, ih2, hrest]
    · by_cases hp : p v' = true
      · simp [List.filter_cons, hp, mapGet, hk, ih2]
      · have hp2 : p v' = false := by simpa using hp
        simp [List.filter_cons, hp2, mapGet, hk, ih2]

theorem cleanupInactiveRooms_rooms (m : RoomManager) (maxAge : Int) (now : Nat)
    (hnd : (mapKeys m.rooms).Nodup) :
    (m.cleanupInactiveRooms maxAge now).rooms =
      m.rooms.filter (fun e => !(inactive maxAge now e.2)) := by
  unfold cleanupInactiveRooms
  rw [foldl_cleanupRoomStep_rooms]
  apply List.filter_congr
  intro e he
  by_cases hi : inactive maxAge now e.2 = true
  · have : m.rooms.any (fun d => inactive maxAge now d.2 && decide (d.1 = e.1)) = true :=
      List.any_eq_true.2 ⟨e, he, by simp [hi]⟩
    simp [this, hi]
  · have hi2 : inactive maxAge now e.2 = false := by simpa using hi
    have : m.rooms.any (fun d => inactive maxAge now d.2 && decide (d.1 = e.1)) = false := by
      rw [List.any_eq_false]
      intro d hd hcon
      simp only [Bool.and_eq_true, decide_eq_true_eq] at hcon
      have h1 : mapGet m.rooms d.1 = some d.2 := mapGet_of_mem _ _ _ hnd hd
      have h2 : mapGet m.rooms e.1 = some e.2 := mapGet_of_mem _ _ _ hnd he
      rw [hcon.2, h2] at h1
      have : e.2 = d.2 := by simpa using h1
      rw [this] at hi2
      rw [hcon.1] at hi2
      exact Bool.noConfusion hi2
    simp [this, hi2]

end RoomManager

theorem RoomManager.mapGet_cleanupInactiveRooms (m : RoomManager) (maxAge : Int) (now : Nat)
    (hnd : (mapKeys m.rooms).Nodup) (r : String) :
    mapGet (m.cleanupInactiveRooms maxAge now).rooms r =
      match mapGet m.rooms r with
      | none => none
      | some room =>
        if room.clients.length = 0 ∧ (now : Int) - (room.lastActivity : Int) > maxAge
        then none else some room := by
  have hrooms := RoomManager.cleanupInactiveRooms_rooms m maxAge now hnd
  rw [hrooms, RoomManager.mapGet_filter m.rooms
    (fun room => !(RoomManager.inactive maxAge now room)) r hnd]
  cases hg : mapGet m.rooms r with
  | none => simp [Option.filter]
  | some room =>
    by_cases hc : room.clients.length = 0 ∧ (now : Int) - (room.lastActivity : Int) > maxAge
    · have : RoomManager.inactive maxAge now room = true := by
        simp [RoomManager.inactive, hc.1, hc.2]
      dsimp only
      rw [if_pos hc]
      simp [Option.filter, this]
    · have : RoomManager.inactive maxAge now room = false := by
        simp only [RoomManager.inactive, Bool.and_eq_false_iff, decide_eq_false_iff_not]
        by_cases h0 : room.clients.length = 0
        · right; exact fun h => hc ⟨h0, h⟩
        · left; exact h0
      dsimp only
      rw [if_neg hc]
      simp [Option.filter, this]

/-- C4: `cleanupInactiveRooms maxAge` at clock reading `now` removes exactly the
rooms with zero clients and `now - lastActivity > maxAge`: the map afterwards
is the map before without those entries, every room that stays is unchanged,
and a room with at least one client stays whatever its `lastActivity`. -/
theorem cleanupInactiveRooms_removes_exactly (m : RoomManager) (maxAge : Int) (now : Nat)
    (hnd : (mapKeys m.rooms).Nodup) :
    (m.cleanupInactiveRooms maxAge now).rooms =
      m.rooms.filter (fun e =>
        !(decide (e.2.clients.length = 0) &&
          decide ((now : Int) - (e.2.lastActivity : Int) > maxAge))) ∧
    (∀ r, mapGet (m.cleanupInactiveRooms maxAge now).rooms r =
      match mapGet m.rooms r with
      | none => none
      | some room =>
        if room.clients.length = 0 ∧ (now : Int) - (room.lastActivity : Int) > maxAge
        then none else some room) ∧
    (∀ r room, mapGet m.rooms r = some room → 1 ≤ room.clients.length →
      mapGet (m.cleanupInactiveRooms maxAge now).rooms r = some room) := by
  have hrooms := RoomManager.cleanupInactiveRooms_rooms m maxAge now hnd
  have hget := RoomManager.mapGet_cleanupInactiveRooms m maxAge now hnd
  refine ⟨hrooms, hget, ?_⟩
  intro r room hg hc
  rw [hget r, hg]
  have : ¬ (room.clients.length = 0 ∧ (now : Int) - (room.lastActivity : Int) > maxAge) := by
    intro h; omega
  dsimp only
  rw [if_neg this]

/-- C4 at a concrete input: one hour and a bit after their last activity, the
empty room "b" is removed and the occupied room "a" stays. -/
theorem cleanupInactiveRooms_removes_exactly_witness :
    (mapKeys exampleRegistry.rooms).Nodup ∧
    mapGet (exampleRegistry.cleanupInactiveRooms 3600000 3600001).rooms "b" = none ∧
    mapGet (exampleRegistry.cleanupInactiveRooms 3600000 3600001).rooms "a"
      = mapGet exampleRegistry.rooms "a" :=
  ⟨by decide,
   by
     rw [(cleanupInactiveRooms_removes_exactly exampleRegistry 3600000 3600001
       (by decide)).2.1 "b"]
     decide,
   by
     rw [(cleanupInactiveRooms_removes_exactly exampleRegistry 3600000 3600001
       (by decide)).2.1 "a"]
     decide⟩

/-! ## The session dispatcher -/

namespace Server

theorem emitsNamed_canvasSync (d : DrawingStateManager) (socketId roomId : String) :
    emitsNamed "canvas-state" (canvasSync d socketId roomId) = canvasSync d socketId roomId := by
  unfold canvasSync
  cases d.getState roomId with
  | none => rfl
  | some st => simp [emitsNamed, Message.eventName]

theorem onJoinRoom_store (s : Server) (socketId : String) (c : Conn)
    (roomId userId username color : String) (now : Nat) :
    (s.onJoinRoom socketId c roomId userId username color now).1.drawingStateManager
      = s.drawingStateManager := rfl

theorem onJoinRoom_canvas_emits (s : Server) (socketId : String) (c : Conn)
    (roomId userId username color : String) (now : Nat) :
    emitsNamed "canvas-state"
        (s.onJoinRoom socketId c roomId userId username color now).2.2
      = canvasSync s.drawingStateManager socketId roomId := by
  have h := emitsNamed_canvasSync s.drawingStateManager socketId roomId
  simp only [emitsNamed] at h ⊢
  simp only [onJoinRoom, List.filter_append, h]
  simp [Message.eventName]

theorem onSocket_eq_some (s : Server) (socketId : String)
    (handler : Conn → Server × Conn × List Emit) (s2 : Server) (out : List Emit)
    (h : s.onSocket socketId handler = some (s2, out)) :
    ∃ c, mapGet s.sockets socketId = some c ∧ c.connected = true ∧
      s2 = { (handler c).1 with sockets := mapSet (handler c).1.sockets socketId (handler c).2.1 } ∧
      out = (handler c).2.2 := by
  unfold onSocket at h
  cases hg : mapGet s.sockets socketId with
  | none => simp [hg] at h
  | some c =>
    by_cases hc : c.connected = true
    · simp [hg, hc] at h
      exact ⟨c, rfl, hc, h.1.symm, h.2.symm⟩
    · simp [hg, hc] at h

end Server

/-- C10: in a turn that handles a `join-room` for room `r`, the `canvas-state`
emits are exactly one message to the joining connection carrying the store's
blob and version for `r` when the store holds a state for `r`, and none
otherwise; the store is the same after the turn. -/
theorem joinRoom_canvas_sync (s s2 : Server) (now : Nat)
    (socketId r userId username color : String) (out : List Emit)
    (hstep : s.step now (Event.joinRoom socketId r userId username color) = some (s2, out)) :
    s2.drawingStateManager = s.drawingStateManager ∧
    emitsNamed "canvas-state" out =
      match s.drawingStateManager.getState r with
      | some st =>
        [{ target := Target.socket socketId,
           msg := Message.canvasStateSync st.canvasData st.version }]
      | none => [] := by
  obtain ⟨c, _, _, hs2, hout⟩ := Server.onSocket_eq_some s socketId _ s2 out hstep
  subst hs2 hout
  refine ⟨rfl, ?_⟩
  rw [Server.onJoinRoom_canvas_emits]
  rfl

/-- C10 at a concrete input: "C" joins "r1" after "A" saved blob "X" there. -/
theorem joinRoom_canvas_sync_witness :
    exampleServer.step 4 (Event.joinRoom "C" "r1" "uC" "" "blue") = some exampleJoin ∧
    (exampleJoin.1.drawingStateManager = exampleServer.drawingStateManager ∧
     emitsNamed "canvas-state" exampleJoin.2 =
      match exampleServer.drawingStateManager.getState "r1" with
      | some st =>
        [{ target := Target.socket "C",
           msg := Message.canvasStateSync st.canvasData st.version }]
      | none => []) ∧
    emitsNamed "canvas-state" exampleJoin.2 =
      [{ target := Target.socket "C", msg := Message.canvasStateSync (JsVal.str "X") 1 }] :=
  ⟨by decide,
   joinRoom_canvas_sync exampleServer exampleJoin.1 4 "C" "r1" "uC" "" "blue" exampleJoin.2
     (by decide),
   by decide⟩

namespace Server

theorem mapHas_mapSet_same {α : Type} (m : List (String × α)) (k : String) (v : α) :
    mapHas (mapSet m k v) k = true := by
  simp [mapHas, mapGet_mapSet_same]

theorem mapHas_mapSet_ne {α : Type} (m : List (String × α)) (k k2 : String) (v : α)
    (hne : k ≠ k2) : mapHas (mapSet m k v) k2 = mapHas m k2 := by
  simp [mapHas, mapGet_mapSet_ne _ _ _ _ hne]

theorem nextNumber_onJoinRoom (s : Server) (socketId : String) (c : Conn)
    (roomId userId username color : String) (now : Nat) (r : String) :
    nextNumber (s.onJoinRoom socketId c roomId userId username color now).1.roomUserCounters r
      = nextNumber s.roomUserCounters r + (if roomId = r then 1 else 0) := by
  by_cases h : roomId = r
  · subst h
    simp [nextNumber, onJoinRoom, ensureCounter, mapHas_mapSet_same, mapGet_mapSet_same]
  · simp only [h, if_false, Nat.add_zero]
    simp only [nextNumber, onJoinRoom, ensureCounter, mapHas_mapSet_ne _ _ _ _ h,
      mapGet_mapSet_ne _ _ _ _ h]
    by_cases hh : mapHas s.roomUserCounters roomId = true <;>
      by_cases hr : mapHas s.roomUserCounters r = true <;>
      simp [hh, hr, mapHas_mapSet_ne _ _ _ _ h, mapGet_mapSet_ne _ _ _ _ h,
        mapGet_mapSet_same]

theorem onSocket_counters (s : Server) (socketId : String)
    (handler : Conn → Server × Conn × List Emit) (s2 : Server) (out : List Emit)
    (hkeep : ∀ c, (handler c).1.roomUserCounters = s.roomUserCounters)
    (h : s.onSocket socketId handler = some (s2, out)) :
    s2.roomUserCounters = s.roomUserCounters := by
  obtain ⟨c, _, _, hs2, _⟩ := onSocket_eq_some s socketId handler s2 out h
  subst hs2
  exact hkeep c

theorem step_nextNumber (s s2 : Server) (now : Nat) (ev : Event) (out : List Emit)
    (h : s.step now ev = some (s2, out)) (r : String) :
    nextNumber s2.roomUserCounters r
      = nextNumber s.roomUserCounters r + (if ev.joinsRoom r = true then 1 else 0) := by
  cases ev with
  | joinRoom socketId roomId userId username color =>
    obtain ⟨c, _, _, hs2, _⟩ := onSocket_eq_some s socketId _ s2 out h
    subst hs2
    simpa [Event.joinsRoom] using
      nextNumber_onJoinRoom s socketId c roomId userId username color now r
  | connection socketId =>
    simp only [step] at h
    by_cases hh : mapHas s.sockets socketId = true
    · simp [hh] at h
    · simp [hh] at h
      simp [← h.1, Event.joinsRoom]
  | cursorMove socketId roomId userId pos =>
    have := onSocket_counters s socketId _ s2 out
      (fun c => by unfold onCursorMove; split <;> rfl) h
    simp [this, Event.joinsRoom]
  | drawing socketId data =>
    have := onSocket_counters s socketId _ s2 out
      (fun c => by unfold onDrawing; split <;> [split <;> rfl; rfl]) h
    simp [this, Event.joinsRoom]
  | canvasState socketId roomId canvasData =>
    have := onSocket_counters s socketId _ s2 out (fun c => rfl) h
    simp [this, Event.joinsRoom]
  | requestCanvasState socketId roomId =>
    have := onSocket_counters s socketId _ s2 out (fun c => rfl) h
    simp [this, Event.joinsRoom]
  | clearCanvas socketId roomId =>
    have := onSocket_counters s socketId _ s2 out (fun c => rfl) h
    simp [this, Event.joinsRoom]
  | undo socketId roomId canvasData =>
    have := onSocket_counters s socketId _ s2 out (fun c => rfl) h
    simp [this, Event.joinsRoom]
  | redo socketId roomId canvasData =>
    have := onSocket_counters s socketId _ s2 out (fun c => rfl) h
    simp [this, Event.joinsRoom]
  | disconnect socketId =>
    have := onSocket_counters s socketId _ s2 out
      (fun c => by
        show (s.onDisconnect socketId c now).1.roomUserCounters = _
        unfold onDisconnect; split <;> [split <;> rfl; rfl]) h
    simp [this, Event.joinsRoom]
  | timer k =>
    simp only [step] at h
    cases ht : s.roomManager.timers[k]? with
    | none => simp [ht] at h
    | some t =>
      by_cases hd : t.due ≤ now
      · simp [ht, hd] at h
        simp [← h.1, Event.joinsRoom]
      · simp [ht, hd] at h
  | interval =>
    simp only [step, Option.some.injEq, Prod.mk.injEq] at h
    simp [← h.1, Event.joinsRoom, onInterval]
  | apiRoom roomId =>
    simp only [step, Option.some.injEq, Prod.mk.injEq] at h
    simp [← h.1, Event.joinsRoom, onApiRoom]

theorem run_nextNumber (tr : List (Nat × Event)) :
    ∀ (s0 s : Server), s0.run tr = some s → ∀ r,
      nextNumber s.roomUserCounters r = nextNumber s0.roomUserCounters r + joinCount r tr := by
  induction tr with
  | nil =>
    intro s0 s h r
    simp only [run, Option.some.injEq] at h
    simp [← h, joinCount]
  | cons e tr ih =>
    intro s0 s h r
    obtain ⟨now, ev⟩ := e
    simp only [run] at h
    cases hs : s0.step now ev with
    | none => simp [hs] at h
    | some res =>
      obtain ⟨s1, out⟩ := res
      simp only [hs] at h
      rw [ih s1 s h r, step_nextNumber s0 s1 now ev out hs r]
      by_cases hj : ev.joinsRoom r = true
      · simp [joinCount, List.filter_cons, hj]; omega
      · simp [joinCount, List.filter_cons, hj]

end Server

/-- C7: from a fresh server, after any sequence `pre` of events that can occur, a
turn that handles a `join-room` naming room `r` assigns the name "User" followed
by `k`, where `k` is one more than the number of `join-room` events naming `r`
in `pre`: that name is the only `username-assigned` emit of the turn, it goes to
the joining connection, and it is the connection's `currentUsername` afterwards. -/
theorem join_assigns_sequential_username (pre : List (Nat × Event)) (s s2 : Server)
    (now : Nat) (socketId r userId username color : String) (out : List Emit)
    (hrun : Server.init.run pre = some s)
    (hstep : s.step now (Event.joinRoom socketId r userId username color) = some (s2, out)) :
    emitsNamed "username-assigned" out =
      [{ target := Target.socket socketId,
         msg := Message.usernameAssigned ("User" ++ toString (joinCount r pre + 1)) }] ∧
    (mapGet s2.sockets socketId).bind (fun c => c.currentUsername)
      = some ("User" ++ toString (joinCount r pre + 1)) := by
  have hn := Server.run_nextNumber pre Server.init s hrun r
  have h1 : Server.nextNumber Server.init.roomUserCounters r = 1 := by
    simp [Server.nextNumber, Server.init, Server.ensureCounter, mapHas, mapGet, mapSet]
  rw [h1] at hn
  obtain ⟨c, _, _, hs2, hout⟩ := Server.onSocket_eq_some s socketId _ s2 out hstep
  subst hs2 hout
  have hname : (mapGet (Server.ensureCounter s.roomUserCounters r) r).getD 0
      = joinCount r pre + 1 := by
    have : Server.nextNumber s.roomUserCounters r = 1 + joinCount r pre := hn
    unfold Server.nextNumber at this
    omega
  constructor
  · have hc := Server.emitsNamed_canvasSync s.drawingStateManager socketId r
    have hc2 : emitsNamed "username-assigned"
        (Server.canvasSync s.drawingStateManager socketId r) = [] := by
      unfold Server.canvasSync
      cases s.drawingStateManager.getState r with
      | none => rfl
      | some st => simp [emitsNamed, Message.eventName]
    simp only [emitsNamed] at hc2 ⊢
    simp only [Server.onJoinRoom, List.filter_append, hc2, hname]
    simp [Message.eventName]
  · simp [Server.onJoinRoom, mapGet_mapSet_same, hname]

/-- C7 at a concrete input: the second join naming "r1" is assigned "User2". -/
theorem join_assigns_sequential_username_witness :
    Server.init.run exampleTrace = some exampleServer ∧
    exampleServer.step 4 (Event.joinRoom "C" "r1" "uC" "" "blue") = some exampleJoin ∧
    (emitsNamed "username-assigned" exampleJoin.2 =
      [{ target := Target.socket "C",
         msg := Message.usernameAssigned ("User" ++ toString (joinCount "r1" exampleTrace + 1)) }] ∧
     (mapGet exampleJoin.1.sockets "C").bind (fun c => c.currentUsername)
      = some ("User" ++ toString (joinCount "r1" exampleTrace + 1))) ∧
    "User" ++ toString (joinCount "r1" exampleTrace + 1) = "User2" :=
  ⟨by decide, by decide,
   join_assigns_sequential_username exampleTrace exampleServer exampleJoin.1 4
     "C" "r1" "uC" "" "blue" exampleJoin.2 (by decide) (by decide),
   by decide⟩

/-- C2, the code at the failing input: after `staleTimerOps` room "r" is
registered with one client and the callback scheduled when "c1" left is still
pending; when it fires at its due time, room "r" is gone from the registry. -/
theorem stale_timer_deletes_occupied_room :
    ((RoomManager.new.exec staleTimerOps).getRoomClients "r").length = 1 ∧
    (RoomManager.new.exec staleTimerOps).timers
      = [{ due := 3950000, roomId := "r", room := 0 }] ∧
    (mapGet (RoomManager.new.exec staleTimerOps).rooms "r").map (fun room => room.ref)
      = some 1 ∧
    mapGet ((RoomManager.new.exec staleTimerOps).fireTimer 0 3950000).rooms "r" = none := by
  decide

/-! ## Executions of the registry: well-formedness and pending callbacks -/

theorem mapHas_iff_mem_mapKeys {α : Type} (l : List (String × α)) (k : String) :
    mapHas l k = true ↔ k ∈ mapKeys l := by
  induction l with
  | nil => simp [mapHas, mapGet, mapKeys]
  | cons e rest ih =>
    obtain ⟨k', v⟩ := e
    by_cases hk : k' = k
    · simp [mapHas, mapGet, mapKeys, hk]
    · have hk2 : ¬ k = k' := fun h => hk h.symm
      simp only [mapHas, mapGet, hk, if_false, mapKeys, List.map_cons, List.mem_cons, hk2,
        false_or]
      exact ih

theorem mapKeys_mapSet {α : Type} (l : List (String × α)) (k : String) (v : α) :
    mapKeys (mapSet l k v) = if mapHas l k = true then mapKeys l else mapKeys l ++ [k] := by
  induction l with
  | nil => simp [mapSet, mapKeys, mapHas, mapGet]
  | cons e rest ih =>
    obtain ⟨k', v'⟩ := e
    by_cases hk : k' = k
    · simp [mapSet, mapKeys, mapHas, mapGet, hk]
    · simp only [mapSet, hk, if_false, mapKeys, List.map_cons, mapHas, mapGet]
      simp only [mapKeys, mapHas] at ih
      rw [ih]
      split <;> simp

theorem nodup_mapKeys_mapSet {α : Type} (l : List (String × α)) (k : String) (v : α)
    (h : (mapKeys l).Nodup) : (mapKeys (mapSet l k v)).Nodup := by
  rw [mapKeys_mapSet]
  by_cases hk : mapHas l k = true
  · simp [hk, h]
  · simp only [hk, if_false]
    have hnot : k ∉ mapKeys l := fun hm => hk ((mapHas_iff_mem_mapKeys l k).2 hm)
    exact List.nodup_append.2 ⟨h, List.nodup_singleton k, by
      intro a ha hb
      simp only [List.mem_singleton] at hb
      subst hb
      exact hnot ha⟩

theorem nodup_mapKeys_mapDelete {α : Type} (l : List (String × α)) (k : String)
    (h : (mapKeys l).Nodup) : (mapKeys (mapDelete l k)).Nodup :=
  List.Nodup.sublist (List.Sublist.map _ (List.filter_sublist l)) h

theorem mapHas_mapSet_of_mapHas {α : Type} (l : List (String × α)) (k k2 : String) (v : α)
    (h : mapHas l k2 = true) : mapHas (mapSet l k v) k2 = true := by
  by_cases hk : k = k2
  · subst hk; simp [mapHas, mapGet_mapSet_same]
  · simpa [mapHas, mapGet_mapSet_ne _ _ _ _ hk] using h

namespace RoomManager

theorem getRoom_timers (m : RoomManager) (r : String) (now : Nat) :
    (m.getRoom r now).1.timers = m.timers := by
  unfold getRoom
  cases mapGet m.rooms r <;> rfl

theorem getRoom_wf (m : RoomManager) (r : String) (now : Nat) (h : m.WF) :
    (m.getRoom r now).1.WF := by
  unfold getRoom
  cases hg : mapGet m.rooms r with
  | none => exact nodup_mapKeys_mapSet _ _ _ h
  | some room => exact h

theorem getRoom_mapHas (m : RoomManager) (r r2 : String) (now : Nat)
    (h : mapHas m.rooms r2 = true) : mapHas (m.getRoom r now).1.rooms r2 = true := by
  unfold getRoom
  cases hg : mapGet m.rooms r with
  | none => exact mapHas_mapSet_of_mapHas _ _ _ _ h
  | some room => exact h

theorem foldl_cleanupRoomStep_timers (maxAge : Int) (now : Nat) (es : List (String × Room)) :
    ∀ acc : RoomManager, (es.foldl (cleanupRoomStep maxAge now) acc).timers = acc.timers := by
  induction es with
  | nil => intro acc; rfl
  | cons d es ih =>
    intro acc
    rw [List.foldl_cons, ih]
    unfold cleanupRoomStep
    split
    · exact deleteRoom_timers _ _
    · rfl

theorem timerBody_timers (m : RoomManager) (t : Timer) : (m.timerBody t).timers = m.timers := by
  unfold timerBody
  split
  · split
    · exact deleteRoom_timers _ _
    · rfl
  · rfl

theorem timerBody_rooms (m : RoomManager) (t : Timer) :
    (m.timerBody t).rooms = m.rooms ∨ (m.timerBody t).rooms = mapDelete m.rooms t.roomId := by
  unfold timerBody
  split
  · split
    · exact Or.inr (deleteRoom_rooms _ _)
    · exact Or.inl rfl
  · exact Or.inl rfl

theorem fireTimer_cases (m : RoomManager) (k now : Nat) :
    m.fireTimer k now = m ∨
    ∃ t, m.timers[k]? = some t ∧ t.due ≤ now ∧
      m.fireTimer k now = timerBody { m with timers := m.timers.eraseIdx k } t := by
  unfold fireTimer
  cases ht : m.timers[k]? with
  | none => exact Or.inl rfl
  | some t =>
    by_cases hd : t.due ≤ now
    · exact Or.inr ⟨t, rfl, hd, by simp [hd]⟩
    · exact Or.inl (by simp [hd])

theorem apply_wf (m : RoomManager) (now : Nat) (op : RegOp) (h : m.WF) :
    (m.apply now op).WF := by
  cases op with
  | getRoom r => exact getRoom_wf m r now h
  | addClient r u c name color =>
    exact nodup_mapKeys_mapSet _ _ _ (getRoom_wf m r now h)
  | removeClient r c =>
    show (m.removeClient r c now).1.WF
    cases hg : mapGet m.rooms r with
    | none => rw [removeClient_absent _ _ _ _ hg]; exact h
    | some room =>
      cases hf : room.clients.find? (fun cl => decide (cl.socketId = c)) with
      | none => rw [removeClient_miss _ _ _ _ _ hg hf]; exact h
      | some cl =>
        rw [removeClient_hit _ _ _ _ _ _ hg hf]
        exact nodup_mapKeys_mapSet _ _ _ h
  | updateCursorPosition r u p =>
    show (m.updateCursorPosition r u p).1.WF
    unfold updateCursorPosition
    split
    · exact h
    · split
      · exact nodup_mapKeys_mapSet _ _ _ h
      · exact h
  | setCanvasState r b =>
    exact nodup_mapKeys_mapSet _ _ _ (getRoom_wf m r now h)
  | cleanupInactiveRooms maxAge =>
    show (mapKeys (m.cleanupInactiveRooms maxAge now).rooms).Nodup
    unfold cleanupInactiveRooms
    rw [foldl_cleanupRoomStep_rooms]
    exact List.Nodup.sublist (List.Sublist.map _ (List.filter_sublist _)) h
  | fireTimer k =>
    show (m.fireTimer k now).WF
    rcases fireTimer_cases m k now with h1 | ⟨t, _, _, h1⟩
    · rw [h1]; exact h
    · rw [h1]
      unfold WF
      rcases timerBody_rooms { m with timers := m.timers.eraseIdx k } t with h2 | h2
      · rw [h2]; exact h
      · rw [h2]; exact nodup_mapKeys_mapDelete _ _ h

theorem exec_append_singleton (m : RoomManager) (pre : List (Nat × RegOp)) (now : Nat)
    (op : RegOp) : m.exec (pre ++ [(now, op)]) = (m.exec pre).apply now op := by
  simp [exec, List.foldl_append]

theorem exec_wf (pre : List (Nat × RegOp)) : (RoomManager.new.exec pre).WF := by
  induction pre using List.reverseRecOn with
  | nil => simp [exec, WF, new, mapKeys]
  | append_singleton pre e ih =>
    obtain ⟨now, op⟩ := e
    rw [exec_append_singleton]
    exact apply_wf _ _ _ ih

theorem apply_timers (m : RoomManager) (now : Nat) (op : RegOp) (t : Timer)
    (ht : t ∈ (m.apply now op).timers) :
    t ∈ m.timers ∨
    ∃ r c, op = RegOp.removeClient r c ∧ t.due = now + deletionDelay ∧ t.roomId = r ∧
      m.getRoomClients r ≠ [] ∧ (m.apply now op).getRoomClients r = [] := by
  cases op with
  | getRoom r => exact Or.inl (by simpa [apply, getRoom_timers] using ht)
  | addClient r u c name color =>
    exact Or.inl (by simpa [apply, addClient, getRoom_timers] using ht)
  | removeClient r c =>
    have hafter := getRoomClients_removeClient_same m r c now
    simp only [apply] at ht ⊢
    cases hg : mapGet m.rooms r with
    | none => rw [removeClient_absent _ _ _ _ hg] at ht; exact Or.inl ht
    | some room =>
      cases hf : room.clients.find? (fun cl => decide (cl.socketId = c)) with
      | none => rw [removeClient_miss _ _ _ _ _ hg hf] at ht; exact Or.inl ht
      | some cl =>
        have hcl : m.getRoomClients r = room.clients := by simp [getRoomClients, hg]
        rw [removeClient_hit _ _ _ _ _ _ hg hf] at ht
        by_cases he : (room.clients.eraseP (fun cl => decide (cl.socketId = c))).length = 0
        · simp only [he, if_true, List.mem_append, List.mem_singleton] at ht
          rcases ht with ht | ht
          · exact Or.inl ht
          · refine Or.inr ⟨r, c, rfl, by rw [ht], by rw [ht], ?_, ?_⟩
            · rw [hcl]
              intro hnil
              rw [hnil] at hf
              simp at hf
            · rw [hafter, hcl]
              exact List.length_eq_zero.1 he
        · simp only [he, if_false] at ht
          exact Or.inl ht
  | updateCursorPosition r u p =>
    refine Or.inl ?_
    simp only [apply, updateCursorPosition] at ht
    split at ht
    · exact ht
    · split at ht
      · exact ht
      · exact ht
  | setCanvasState r b =>
    exact Or.inl (by simpa [apply, setCanvasState, getRoom_timers] using ht)
  | cleanupInactiveRooms maxAge =>
    refine Or.inl ?_
    simpa [apply, cleanupInactiveRooms, foldl_cleanupRoomStep_timers] using ht
  | fireTimer k =>
    refine Or.inl ?_
    simp only [apply] at ht
    rcases fireTimer_cases m k now with h1 | ⟨t0, _, _, h1⟩
    · rw [h1] at ht; exact ht
    · rw [h1, timerBody_timers] at ht
      exact List.mem_of_mem_eraseIdx ht

theorem emptiedAt_append (pre : List (Nat × RegOp)) (e : Nat × RegOp) (r : String) (t : Nat)
    (h : emptiedAt pre r t) : emptiedAt (pre ++ [e]) r t := by
  obtain ⟨p1, c, p2, hp, h1, h2⟩ := h
  exact ⟨p1, c, p2 ++ [e], by simp [hp], h1, h2⟩

theorem exec_timers (pre : List (Nat × RegOp)) :
    ∀ t ∈ (RoomManager.new.exec pre).timers,
      ∃ t0, t.due = t0 + deletionDelay ∧ emptiedAt pre t.roomId t0 := by
  induction pre using List.reverseRecOn with
  | nil => intro t ht; simp [exec, new] at ht
  | append_singleton pre e ih =>
    obtain ⟨now, op⟩ := e
    intro t ht
    rw [exec_append_singleton] at ht
    rcases apply_timers _ now op t ht with hold | ⟨r, c, hop, hdue, hr, hne, hemp⟩
    · obtain ⟨t0, h1, h2⟩ := ih t hold
      exact ⟨t0, h1, emptiedAt_append _ _ _ _ h2⟩
    · subst hop
      refine ⟨now, hdue, ?_⟩
      rw [hr]
      exact ⟨pre, c, [], rfl, hne, hemp⟩

end RoomManager

/-- C3, the code at the failing inputs.  After `earlySweepOps` room "r" became
empty at 7200000 ms; a `cleanupInactiveRooms` with the default `maxAge` called
1 ms later removes it.  After `earlyTimerOps` room "r" last became empty at
50000 ms; the callback scheduled at 1000 ms fires at 61000 ms and removes it,
11 s after it last became empty.  In both executions the room removed is the
room object created at 0 ms, it is removed while registered and empty, and
less than 60 s after the most recent moment at which its membership became
empty. -/
theorem room_removed_within_60s_of_emptying :
    (RoomManager.emptiedAt earlySweepOps "r" 7200000 ∧
     (mapGet (RoomManager.new.exec earlySweepOps).rooms "r").map
        (fun room => (room.ref, room.createdAt, room.clients.length)) = some (0, 0, 0) ∧
     mapHas ((RoomManager.new.exec earlySweepOps).apply 7200001
        (RegOp.cleanupInactiveRooms RoomManager.defaultMaxAge)).rooms "r" = false ∧
     7200001 < 7200000 + 60000) ∧
    (RoomManager.emptiedAt earlyTimerOps "r" 50000 ∧
     (mapGet (RoomManager.new.exec earlyTimerOps).rooms "r").map
        (fun room => (room.ref, room.createdAt, room.clients.length)) = some (0, 0, 0) ∧
     mapHas ((RoomManager.new.exec earlyTimerOps).apply 61000 (RegOp.fireTimer 0)).rooms "r"
       = false ∧
     61000 < 50000 + 60000) :=
  ⟨⟨⟨[(0, RegOp.addClient "r" "u1" "c1" "User1" "red")], "c1", [], rfl,
      by decide, by decide⟩, by decide, by decide, by decide⟩,
   ⟨⟨[(0, RegOp.addClient "r" "u1" "c1" "User1" "red"),
      (1000, RegOp.removeClient "r" "c1"),
      (10000, RegOp.addClient "r" "u2" "c2" "User2" "blue")], "c2", [], rfl,
      by decide, by decide⟩, by decide, by decide, by decide⟩⟩

/-! ## Connection ids in the registry -/

theorem mapGet_filter_key {α : Type} (l : List (String × α)) (q : String → Bool) (k : String) :
    mapGet (l.filter (fun e => q e.1)) k = if q k = true then mapGet l k else none := by
  induction l with
  | nil => simp [mapGet]
  | cons e rest ih =>
    obtain ⟨k', v⟩ := e
    by_cases hk : k' = k
    · subst hk
      by_cases hq : q k' = true
      · simp [List.filter_cons, hq, mapGet]
      · simp only [List.filter_cons, hq, if_false] at ih ⊢
        exact ih
    · by_cases hq : q k' = true
      · simp only [List.filter_cons, hq, if_true, mapGet, hk, if_false]
        exact ih
      · simp only [List.filter_cons, hq, if_false, mapGet, hk]
        exact ih

namespace RoomManager

theorem getRoomClients_congr (m m2 : RoomManager) (h : m2.rooms = m.rooms) (r : String) :
    m2.getRoomClients r = m.getRoomClients r := by
  simp [getRoomClients, h]

theorem getRoomClients_of_filter_key (m m2 : RoomManager) (q : String → Bool)
    (h : m2.rooms = m.rooms.filter (fun e => q e.1)) (r : String) :
    m2.getRoomClients r = if q r = true then m.getRoomClients r else [] := by
  by_cases hq : q r = true <;> simp [getRoomClients, h, mapGet_filter_key, hq]

theorem getRoomClients_getRoom (m : RoomManager) (r r2 : String) (now : Nat) :
    (m.getRoom r now).1.getRoomClients r2 = m.getRoomClients r2 := by
  by_cases h : r = r2
  · subst h
    have h1 := getRoom_rooms_same m r now
    have h2 := getRoom_clients m r now
    simp only [getRoomClients, h1] at h2 ⊢
    exact h2
  · simp [getRoomClients, getRoom_rooms_ne _ _ _ _ h]

theorem getRoomClients_setCanvasState (m : RoomManager) (r r2 : String) (b : JsVal)
    (now : Nat) : (m.setCanvasState r b now).getRoomClients r2 = m.getRoomClients r2 := by
  by_cases h : r = r2
  · subst h
    simp [setCanvasState, getRoomClients, mapGet_mapSet_same, getRoom_clients]
  · rw [← getRoomClients_getRoom m r r2 now]
    simp [setCanvasState, getRoomClients, mapGet_mapSet_ne _ _ _ _ h]

theorem socketIds_updateFirst (p : Client → Bool) (pos : JsVal) (l : List Client) :
    socketIds (updateFirst p (fun c => { c with cursorPos := pos }) l) = socketIds l := by
  induction l with
  | nil => rfl
  | cons x xs ih =>
    simp only [updateFirst]
    split
    · simp [socketIds]
    · simp only [socketIds, List.map_cons] at ih ⊢
      rw [ih]

theorem socketIds_updateCursorPosition (m : RoomManager) (r r2 u : String) (pos : JsVal) :
    socketIds ((m.updateCursorPosition r u pos).1.getRoomClients r2)
      = socketIds (m.getRoomClients r2) := by
  unfold updateCursorPosition
  cases hg : mapGet m.rooms r with
  | none => rfl
  | some room =>
    dsimp only
    split
    · by_cases h : r = r2
      · subst h
        simp [getRoomClients, mapGet_mapSet_same, hg, socketIds_updateFirst]
      · simp [getRoomClients, mapGet_mapSet_ne _ _ _ _ h]
    · rfl

theorem apply_shrinks (m : RoomManager) (now : Nat) (op : RegOp) (hop : op.isAdd = false) :
    Shrinks m (m.apply now op) := by
  refine ⟨apply_wf m now op, ?_⟩
  intro r2
  cases op with
  | getRoom r =>
    simp only [apply, getRoomClients_getRoom]
    exact List.Sublist.refl _
  | addClient r u c name color => simp [RegOp.isAdd] at hop
  | removeClient r c =>
    simp only [apply]
    by_cases h : r = r2
    · subst h
      rw [getRoomClients_removeClient_same]
      exact List.Sublist.map _ (List.eraseP_sublist _)
    · rw [getRoomClients_removeClient_ne _ _ _ _ _ h]
  | updateCursorPosition r u p =>
    simp only [apply, socketIds_updateCursorPosition]
    exact List.Sublist.refl _
  | setCanvasState r b =>
    simp only [apply, getRoomClients_setCanvasState]
    exact List.Sublist.refl _
  | cleanupInactiveRooms maxAge =>
    simp only [apply]
    have hrooms := foldl_cleanupRoomStep_rooms maxAge now m.rooms m
    rw [getRoomClients_of_filter_key m (m.cleanupInactiveRooms maxAge now)
      (fun k => !(m.rooms.any (fun d => inactive maxAge now d.2 && decide (d.1 = k)))) hrooms]
    split
    · exact List.Sublist.refl _
    · exact List.nil_sublist _
  | fireTimer k =>
    simp only [apply]
    rcases fireTimer_cases m k now with h1 | ⟨t, _, _, h1⟩
    · rw [h1]
    · rw [h1]
      rcases timerBody_rooms { m with timers := m.timers.eraseIdx k } t with h2 | h2
      · rw [getRoomClients_congr m _ h2]
      · have h3 : (timerBody { m with timers := m.timers.eraseIdx k } t).rooms
            = m.rooms.filter (fun e => (fun k2 => decide (k2 ≠ t.roomId)) e.1) := h2
        rw [getRoomClients_of_filter_key m _ (fun k2 => decide (k2 ≠ t.roomId)) h3]
        split
        · exact List.Sublist.refl _
        · exact List.nil_sublist _

theorem Shrinks.refl (m : RoomManager) : Shrinks m m :=
  ⟨fun h => h, fun _ => List.Sublist.refl _⟩

theorem eq_clients_of_mem (m : RoomManager) (hwf : m.WF) (e : String × Room)
    (he : e ∈ m.rooms) : m.getRoomClients e.1 = e.2.clients := by
  have := mapGet_of_mem m.rooms e.1 e.2 hwf he
  simp [getRoomClients, this]

end RoomManager

/-! ## What one turn of the event loop does to the registry and the connections -/

namespace Server

theorem onSocket_registry (s : Server) (socketId : String)
    (handler : Conn → Server × Conn × List Emit) (s2 : Server) (out : List Emit)
    (P : RoomManager → Prop) (hreg : ∀ c, P (handler c).1.roomManager)
    (h : s.onSocket socketId handler = some (s2, out)) : P s2.roomManager := by
  obtain ⟨c, _, _, hs2, _⟩ := onSocket_eq_some s socketId handler s2 out h
  subst hs2
  exact hreg c

theorem onSocket_sockets (s : Server) (socketId : String)
    (handler : Conn → Server × Conn × List Emit) (s2 : Server) (out : List Emit)
    (hsock : ∀ c, (handler c).1.sockets = s.sockets)
    (hroom : ∀ c, (handler c).2.1.currentRoom = c.currentRoom)
    (h : s.onSocket socketId handler = some (s2, out)) (sid : String) (c : Conn)
    (hc : mapGet s.sockets sid = some c) :
    ∃ c2, mapGet s2.sockets sid = some c2 ∧ c2.currentRoom = c.currentRoom := by
  obtain ⟨c1, hc1, _, hs2, _⟩ := onSocket_eq_some s socketId handler s2 out h
  subst hs2
  by_cases hs : socketId = sid
  · subst hs
    rw [hc] at hc1
    cases hc1
    exact ⟨(handler c).2.1, by simp [mapGet_mapSet_same], hroom c⟩
  · exact ⟨c, by simp [mapGet_mapSet_ne _ _ _ _ hs, hsock, hc], rfl⟩

theorem onCursorMove_registry (s : Server) (socketId : String) (c : Conn)
    (roomId userId : String) (pos : JsVal) (now : Nat) :
    RoomManager.Shrinks s.roomManager (s.onCursorMove socketId c roomId userId pos).1.roomManager := by
  unfold onCursorMove
  split
  · exact RoomManager.apply_shrinks s.roomManager now
      (RegOp.updateCursorPosition roomId userId pos) rfl
  · exact RoomManager.Shrinks.refl _

theorem onDisconnect_roomManager (s : Server) (socketId : String) (c : Conn) (now : Nat) :
    (s.onDisconnect socketId c now).1.roomManager =
      match c.currentRoom with
      | some r =>
        if strTruthy (some r) = true then (s.roomManager.removeClient r socketId now).1
        else s.roomManager
      | none => s.roomManager := by
  unfold onDisconnect
  cases c.currentRoom with
  | none => rfl
  | some r =>
    dsimp only
    split <;> rfl

theorem onDisconnect_registry (s : Server) (socketId : String) (c : Conn) (now : Nat) :
    RoomManager.Shrinks s.roomManager (s.onDisconnect socketId c now).1.roomManager := by
  rw [onDisconnect_roomManager]
  cases c.currentRoom with
  | none => exact RoomManager.Shrinks.refl _
  | some r =>
    dsimp only
    split
    · exact RoomManager.apply_shrinks s.roomManager now (RegOp.removeClient r socketId) rfl
    · exact RoomManager.Shrinks.refl _

theorem onDisconnect_sockets (s : Server) (socketId : String) (c : Conn) (now : Nat) :
    (s.onDisconnect socketId c now).1.sockets = s.sockets ∧
    (s.onDisconnect socketId c now).2.1 = c := by
  unfold onDisconnect
  cases c.currentRoom with
  | none => exact ⟨rfl, rfl⟩
  | some r =>
    dsimp only
    split <;> exact ⟨rfl, rfl⟩

theorem onCursorMove_sockets (s : Server) (socketId : String) (c : Conn)
    (roomId userId : String) (pos : JsVal) :
    (s.onCursorMove socketId c roomId userId pos).1.sockets = s.sockets ∧
    (s.onCursorMove socketId c roomId userId pos).2.1 = c := by
  unfold onCursorMove
  split <;> exact ⟨rfl, rfl⟩

theorem onDrawing_same (s : Server) (socketId : String) (c : Conn)
    (data : List (String × JsVal)) :
    (s.onDrawing socketId c data).1 = s ∧ (s.onDrawing socketId c data).2.1 = c := by
  unfold onDrawing
  cases c.currentRoom with
  | none => exact ⟨rfl, rfl⟩
  | some r =>
    dsimp only
    split <;> exact ⟨rfl, rfl⟩

/-- The effect of one turn on the registry and on the connections' `currentRoom`. -/
theorem step_effect (s s2 : Server) (now : Nat) (ev : Event) (out : List Emit)
    (h : s.step now ev = some (s2, out)) :
    ((∃ sid r u un col name c, ev = Event.joinRoom sid r u un col ∧
        s2.roomManager = (s.roomManager.addClient r u sid name col now).1 ∧
        mapGet s2.sockets sid = some c ∧ c.currentRoom = some r) ∨
     (ev.joiner = none ∧ RoomManager.Shrinks s.roomManager s2.roomManager)) ∧
    (∀ sid, ev.joiner ≠ some sid → ∀ c, mapGet s.sockets sid = some c →
      ∃ c2, mapGet s2.sockets sid = some c2 ∧ c2.currentRoom = c.currentRoom) := by
  cases ev with
  | joinRoom socketId roomId userId username color =>
    obtain ⟨c, hc, _, hs2, _⟩ := onSocket_eq_some s socketId _ s2 out h
    subst hs2
    refine ⟨Or.inl ⟨socketId, roomId, userId, username, color, _,
      (s.onJoinRoom socketId c roomId userId username color now).2.1, rfl, rfl,
      by simp only [mapGet_mapSet_same], rfl⟩, ?_⟩
    intro sid hsid c0 hc0
    have hne : socketId ≠ sid := by
      intro heq; apply hsid; simp [Event.joiner, heq]
    exact ⟨c0, by
      simp only [mapGet_mapSet_ne _ _ _ _ hne]
      exact hc0, rfl⟩
  | connection socketId =>
    simp only [step] at h
    by_cases hh : mapHas s.sockets socketId = true
    · simp [hh] at h
    · simp only [hh, if_false, Option.some.injEq, Prod.mk.injEq] at h
      rcases h with ⟨rfl, -⟩
      refine ⟨Or.inr ⟨rfl, RoomManager.Shrinks.refl _⟩, ?_⟩
      intro sid _ c0 hc0
      have hne : socketId ≠ sid := by
        intro heq
        subst heq
        simp [mapHas, hc0] at hh
      exact ⟨c0, by
        simp only [mapGet_mapSet_ne _ _ _ _ hne]
        exact hc0, rfl⟩
  | cursorMove socketId roomId userId pos =>
    refine ⟨Or.inr ⟨rfl, onSocket_registry s socketId _ s2 out _
      (fun c => onCursorMove_registry s socketId c roomId userId pos now) h⟩, ?_⟩
    intro sid _ c0 hc0
    exact onSocket_sockets s socketId _ s2 out
      (fun c => (onCursorMove_sockets s socketId c roomId userId pos).1)
      (fun c => by rw [(onCursorMove_sockets s socketId c roomId userId pos).2]) h sid c0 hc0
  | drawing socketId data =>
    refine ⟨Or.inr ⟨rfl, onSocket_registry s socketId _ s2 out _
      (fun c => by
        rw [(onDrawing_same s socketId c data).1]
        exact RoomManager.Shrinks.refl _) h⟩, ?_⟩
    intro sid _ c0 hc0
    exact onSocket_sockets s socketId _ s2 out
      (fun c => by rw [(onDrawing_same s socketId c data).1])
      (fun c => by rw [(onDrawing_same s socketId c data).2]) h sid c0 hc0
  | canvasState socketId roomId canvasData =>
    refine ⟨Or.inr ⟨rfl, onSocket_registry s socketId _ s2 out _
      (fun c => RoomManager.apply_shrinks s.roomManager now
        (RegOp.setCanvasState roomId canvasData) rfl) h⟩, ?_⟩
    intro sid _ c0 hc0
    exact onSocket_sockets s socketId _ s2 out (fun c => rfl) (fun c => rfl) h sid c0 hc0
  | requestCanvasState socketId roomId =>
    refine ⟨Or.inr ⟨rfl, onSocket_registry s socketId _ s2 out _
      (fun c => RoomManager.Shrinks.refl _) h⟩, ?_⟩
    intro sid _ c0 hc0
    exact onSocket_sockets s socketId _ s2 out (fun c => rfl) (fun c => rfl) h sid c0 hc0
  | clearCanvas socketId roomId =>
    refine ⟨Or.inr ⟨rfl, onSocket_registry s socketId _ s2 out _
      (fun c => RoomManager.Shrinks.refl _) h⟩, ?_⟩
    intro sid _ c0 hc0
    exact onSocket_sockets s socketId _ s2 out (fun c => rfl) (fun c => rfl) h sid c0 hc0
  | undo socketId roomId canvasData =>
    refine ⟨Or.inr ⟨rfl, onSocket_registry s socketId _ s2 out _
      (fun c => RoomManager.Shrinks.refl _) h⟩, ?_⟩
    intro sid _ c0 hc0
    exact onSocket_sockets s socketId _ s2 out (fun c => rfl) (fun c => rfl) h sid c0 hc0
  | redo socketId roomId canvasData =>
    refine ⟨Or.inr ⟨rfl, onSocket_registry s socketId _ s2 out _
      (fun c => RoomManager.Shrinks.refl _) h⟩, ?_⟩
    intro sid _ c0 hc0
    exact onSocket_sockets s socketId _ s2 out (fun c => rfl) (fun c => rfl) h sid c0 hc0
  | disconnect socketId =>
    have h : s.onSocket socketId (fun c =>
        ((s.onDisconnect socketId c now).1,
         { (s.onDisconnect socketId c now).2.1 with connected := false },
         (s.onDisconnect socketId c now).2.2)) = some (s2, out) := h
    refine ⟨Or.inr ⟨rfl, onSocket_registry s socketId _ s2 out
      (RoomManager.Shrinks s.roomManager) ?_ h⟩, ?_⟩
    · intro c
      exact onDisconnect_registry s socketId c now
    · intro sid _ c0 hc0
      refine onSocket_sockets s socketId _ s2 out ?_ ?_ h sid c0 hc0
      · intro c
        exact (onDisconnect_sockets s socketId c now).1
      · intro c
        show ({ (s.onDisconnect socketId c now).2.1 with connected := false } : Conn).currentRoom
          = c.currentRoom
        rw [(onDisconnect_sockets s socketId c now).2]
  | timer k =>
    simp only [step] at h
    cases ht : s.roomManager.timers[k]? with
    | none => simp [ht] at h
    | some t =>
      by_cases hd : t.due ≤ now
      · simp only [ht, hd, if_true, Option.some.injEq, Prod.mk.injEq] at h
        rcases h with ⟨rfl, -⟩
        exact ⟨Or.inr ⟨rfl, RoomManager.apply_shrinks s.roomManager now (RegOp.fireTimer k) rfl⟩,
          fun sid _ c0 hc0 => ⟨c0, hc0, rfl⟩⟩
      · simp [ht, hd] at h
  | interval =>
    simp only [step, Option.some.injEq, Prod.mk.injEq] at h
    rcases h with ⟨rfl, -⟩
    exact ⟨Or.inr ⟨rfl, RoomManager.apply_shrinks s.roomManager now
        (RegOp.cleanupInactiveRooms RoomManager.defaultMaxAge) rfl⟩,
      fun sid _ c0 hc0 => ⟨c0, hc0, rfl⟩⟩
  | apiRoom roomId =>
    simp only [step, Option.some.injEq, Prod.mk.injEq] at h
    rcases h with ⟨rfl, -⟩
    exact ⟨Or.inr ⟨rfl, RoomManager.apply_shrinks s.roomManager now (RegOp.getRoom roomId) rfl⟩,
      fun sid _ c0 hc0 => ⟨c0, hc0, rfl⟩⟩

end Server

/-! ## Invariants of the server's executions -/

namespace RoomManager

theorem socketIds_addClient (m : RoomManager) (r r2 u sid name color : String) (now : Nat) :
    socketIds ((m.addClient r u sid name color now).1.getRoomClients r2)
      = socketIds (m.getRoomClients r2) ++ (if r = r2 then [sid] else []) := by
  by_cases h : r = r2
  · subst h
    simp [getRoomClients_addClient_same, socketIds]
  · simp [getRoomClients_addClient_ne _ _ _ _ _ _ _ _ h, h]

theorem not_mem_socketIds_eraseP (sid : String) (l : List Client)
    (h : (socketIds l).count sid ≤ 1) :
    sid ∉ socketIds (l.eraseP (fun c => decide (c.socketId = sid))) := by
  induction l with
  | nil => simp [socketIds]
  | cons x xs ih =>
    by_cases hx : x.socketId = sid
    · have h1 : (socketIds xs).count sid = 0 := by
        simp only [socketIds, List.map_cons, hx, List.count_cons_self] at h
        simp only [socketIds]
        omega
      simp only [List.eraseP_cons, hx, decide_True, cond_true]
      exact List.count_eq_zero.1 h1
    · have h1 : (socketIds xs).count sid ≤ 1 := by
        simp only [socketIds, List.map_cons] at h
        rw [List.count_cons_of_ne (fun heq => hx heq.symm)] at h
        exact h
      simp only [List.eraseP_cons, hx, decide_False, cond_false, socketIds, List.map_cons,
        List.mem_cons, not_or]
      exact ⟨fun heq => hx heq.symm, ih h1⟩

end RoomManager

namespace Server

theorem step_wf (s s2 : Server) (now : Nat) (ev : Event) (out : List Emit)
    (h : s.step now ev = some (s2, out)) (hwf : s.roomManager.WF) : s2.roomManager.WF := by
  rcases (step_effect s s2 now ev out h).1 with ⟨sid, r, u, un, col, name, c, _, hrm, _⟩ | ⟨_, hs⟩
  · rw [hrm]
    exact RoomManager.apply_wf s.roomManager now (RegOp.addClient r u sid name col) hwf
  · exact hs.1 hwf

theorem run_wf (tr : List (Nat × Event)) :
    ∀ s0 s : Server, s0.run tr = some s → s0.roomManager.WF → s.roomManager.WF := by
  induction tr with
  | nil =>
    intro s0 s h hwf
    simp only [run, Option.some.injEq] at h
    rw [← h]; exact hwf
  | cons e tr ih =>
    intro s0 s h hwf
    obtain ⟨now, ev⟩ := e
    simp only [run] at h
    cases hs : s0.step now ev with
    | none => simp [hs] at h
    | some res =>
      obtain ⟨s1, out⟩ := res
      simp only [hs] at h
      exact ih s1 s h (step_wf s0 s1 now ev out hs hwf)

theorem init_wf : Server.init.roomManager.WF := by
  simp [Server.init, RoomManager.new, RoomManager.WF, mapKeys]

theorem joinPair_of_joiner_none (ev : Event) (h : ev.joiner = none) : ev.joinPair = none := by
  cases ev <;> simp [Event.joiner] at h <;> rfl

theorem step_idsFrom (s s2 : Server) (now : Nat) (ev : Event) (out : List Emit)
    (h : s.step now ev = some (s2, out)) (P : List (String × String))
    (hinv : RoomManager.IdsFrom P s.roomManager)
    (hnew : ∀ q, ev.joinPair = some q → q ∉ P) :
    RoomManager.IdsFrom (P ++ ev.joinPair.toList) s2.roomManager := by
  rcases (step_effect s s2 now ev out h).1 with
    ⟨sid, r, u, un, col, name, c, hev, hrm, _⟩ | ⟨hj, hs⟩
  · subst hev
    have hsid : (sid, r) ∉ P := hnew (sid, r) rfl
    intro r2
    rw [hrm, RoomManager.socketIds_addClient]
    obtain ⟨hnd, hmem⟩ := hinv r2
    by_cases hr : r = r2
    · subst hr
      simp only [if_true, Event.joinPair, Option.toList]
      constructor
      · refine List.nodup_append.2 ⟨hnd, List.nodup_singleton sid, ?_⟩
        intro a ha hb
        simp only [List.mem_singleton] at hb
        subst hb
        exact hsid (hmem a ha)
      · intro x hx
        rcases List.mem_append.1 hx with hx | hx
        · exact List.mem_append_left _ (hmem x hx)
        · simp only [List.mem_singleton] at hx
          subst hx
          exact List.mem_append_right _ (List.mem_singleton.2 rfl)
    · simp only [hr, if_false, List.append_nil]
      exact ⟨hnd, fun x hx => List.mem_append_left _ (hmem x hx)⟩
  · intro r2
    obtain ⟨hnd, hmem⟩ := hinv r2
    have hsub := hs.2 r2
    exact ⟨List.Nodup.sublist hsub hnd,
      fun x hx => List.mem_append_left _ (hmem x (hsub.subset hx))⟩

theorem joinPairs_cons (now : Nat) (ev : Event) (tr : List (Nat × Event)) :
    joinPairs ((now, ev) :: tr) = ev.joinPair.toList ++ joinPairs tr := by
  unfold joinPairs
  cases hj : ev.joinPair with
  | none => simp [List.filterMap_cons, hj]
  | some q => simp [List.filterMap_cons, hj]

theorem run_idsFrom (tr : List (Nat × Event)) :
    ∀ (s0 s : Server) (P : List (String × String)), s0.run tr = some s →
      RoomManager.IdsFrom P s0.roomManager → (P ++ joinPairs tr).Nodup →
      RoomManager.IdsFrom (P ++ joinPairs tr) s.roomManager := by
  induction tr with
  | nil =>
    intro s0 s P h hinv _
    simp only [run, Option.some.injEq] at h
    simpa [← h, joinPairs] using hinv
  | cons e tr ih =>
    intro s0 s P h hinv hnd
    obtain ⟨now, ev⟩ := e
    simp only [run] at h
    cases hs : s0.step now ev with
    | none => simp [hs] at h
    | some res =>
      obtain ⟨s1, out⟩ := res
      simp only [hs] at h
      rw [joinPairs_cons, ← List.append_assoc] at hnd ⊢
      refine ih s1 s (P ++ ev.joinPair.toList) h (step_idsFrom s0 s1 now ev out hs P hinv ?_) hnd
      intro q hq hmem
      rw [hq] at hnd
      have hnd2 := (List.nodup_append.1 (List.nodup_append.1 hnd).1).2.2
      exact hnd2 hmem (by simp)

end Server

/-- C9 fails as stated: one connection that sends `join-room` twice for room "a"
is recorded there twice. -/
theorem duplicate_connection_id_after_rejoin :
    ∃ s, Server.init.run doubleJoinTrace = some s ∧
      ∃ e ∈ s.roomManager.rooms, ¬ (socketIds e.2.clients).Nodup :=
  ⟨(Server.init.run doubleJoinTrace).getD Server.init, by decide, by decide⟩

/-- C9, amended: in every state reached from the initial state by events among
which no connection sends `join-room` twice for the same room, no room holds
two client records with the same connection id. -/
theorem unique_connection_ids_in_rooms (tr : List (Nat × Event)) (s : Server)
    (hrun : Server.init.run tr = some s) (hone : (joinPairs tr).Nodup) :
    ∀ e ∈ s.roomManager.rooms, (socketIds e.2.clients).Nodup := by
  have h0 : RoomManager.IdsFrom [] Server.init.roomManager := by
    intro r
    simp [Server.init, RoomManager.new, RoomManager.getRoomClients, mapGet, socketIds]
  have hinv := Server.run_idsFrom tr Server.init s [] hrun h0 (by simpa using hone)
  have hwf := Server.run_wf tr Server.init s hrun Server.init_wf
  intro e he
  rw [← RoomManager.eq_clients_of_mem s.roomManager hwf e he]
  exact (hinv e.1).1

/-- C9 (amended) at a concrete input: two connections each join room "a" and
then room "b"; both rooms hold both connections once. -/
theorem unique_connection_ids_in_rooms_witness :
    Server.init.run roomSwitchTrace
      = some ((Server.init.run roomSwitchTrace).getD Server.init) ∧
    (joinPairs roomSwitchTrace).Nodup ∧
    (∀ e ∈ ((Server.init.run roomSwitchTrace).getD Server.init).roomManager.rooms,
      (socketIds e.2.clients).Nodup) ∧
    ((Server.init.run roomSwitchTrace).getD Server.init).roomManager.rooms.map
        (fun e => (e.1, socketIds e.2.clients))
      = [("a", ["s1", "s2"]), ("b", ["s1", "s2"])] :=
  ⟨by decide, by decide,
   unique_connection_ids_in_rooms roomSwitchTrace
     ((Server.init.run roomSwitchTrace).getD Server.init) (by decide) (by decide),
   by decide⟩

namespace Server

theorem joinedRoom_of_joiner_none (ev : Event) (sid : String) (h : ev.joiner = none) :
    ev.joinedRoom sid = none := by
  cases ev <;> simp [Event.joiner] at h <;> rfl

theorem tracks_of_shrinks (sid : String) (J : List String) (s s2 : Server)
    (hs : RoomManager.Shrinks s.roomManager s2.roomManager)
    (hc : ∀ c, mapGet s.sockets sid = some c →
      ∃ c2, mapGet s2.sockets sid = some c2 ∧ c2.currentRoom = c.currentRoom)
    (h : Tracks sid J s) : Tracks sid J s2 := by
  match J, h with
  | [], h =>
    intro r hmem
    exact h r ((hs.2 r).subset hmem)
  | [r0], h =>
    obtain ⟨⟨c, hc1, hc2⟩, hother, hcount⟩ := h
    obtain ⟨c2, hc3, hc4⟩ := hc c hc1
    refine ⟨⟨c2, hc3, by rw [hc4, hc2]⟩, ?_, ?_⟩
    · intro r hr hmem
      exact hother r hr ((hs.2 r).subset hmem)
    · exact Nat.le_trans ((hs.2 r0).count_le sid) hcount
  | _ :: _ :: _, _ => trivial

theorem step_tracks (sid : String) (s s2 : Server) (now : Nat) (ev : Event) (out : List Emit)
    (h : s.step now ev = some (s2, out)) (J : List String) (hJ : Tracks sid J s) :
    Tracks sid (J ++ (ev.joinedRoom sid).toList) s2 := by
  have heff := step_effect s s2 now ev out h
  rcases heff.1 with ⟨sid1, r, u, un, col, name, c, hev, hrm, hc1, hc2⟩ | ⟨hj, hs⟩
  · subst hev
    by_cases hsid : sid1 = sid
    · subst hsid
      simp only [Event.joinedRoom, if_true, Option.toList]
      match J, hJ with
      | [], hJ =>
        refine ⟨⟨c, hc1, hc2⟩, ?_, ?_⟩
        · intro r2 hr2
          have hne : r ≠ r2 := fun heq => hr2 heq.symm
          rw [hrm, RoomManager.socketIds_addClient]
          simp only [hne, if_false, List.append_nil]
          exact hJ r2
        · rw [hrm, RoomManager.socketIds_addClient]
          simp only [if_true, List.count_append, List.count_singleton_self]
          have : (socketIds (s.roomManager.getRoomClients r)).count sid1 = 0 :=
            List.count_eq_zero.2 (hJ r)
          omega
      | [_], _ => trivial
      | _ :: _ :: _, _ => trivial
    · simp only [Event.joinedRoom, hsid, if_false, Option.toList, List.append_nil]
      have hkeep : ∀ r2, ∀ x, x ≠ sid1 →
          (socketIds (s2.roomManager.getRoomClients r2)).count x
            = (socketIds (s.roomManager.getRoomClients r2)).count x := by
        intro r2 x hx
        rw [hrm, RoomManager.socketIds_addClient]
        by_cases hr : r = r2
        · simp only [hr, if_true, List.count_append]
          rw [List.count_singleton, if_neg]
          · rfl
          · simpa using fun heq : sid1 = x => hx heq.symm
        · simp [hr]
      have hsock := heff.2 sid (by simp [Event.joiner, hsid])
      have hx : sid ≠ sid1 := fun heq => hsid heq.symm
      match J, hJ with
      | [], hJ =>
        intro r2 hmem
        have h0 : (socketIds (s.roomManager.getRoomClients r2)).count sid = 0 :=
          List.count_eq_zero.2 (hJ r2)
        rw [← hkeep r2 sid hx] at h0
        exact List.count_eq_zero.1 h0 hmem
      | [r0], hJ =>
        obtain ⟨⟨c0, hc01, hc02⟩, hother, hcount⟩ := hJ
        obtain ⟨c3, hc31, hc32⟩ := hsock c0 hc01
        refine ⟨⟨c3, hc31, by rw [hc32, hc02]⟩, ?_, ?_⟩
        · intro r2 hr2 hmem
          have h0 : (socketIds (s.roomManager.getRoomClients r2)).count sid = 0 :=
            List.count_eq_zero.2 (hother r2 hr2)
          rw [← hkeep r2 sid hx] at h0
          exact List.count_eq_zero.1 h0 hmem
        · rw [hkeep r0 sid hx]
          exact hcount
      | _ :: _ :: _, _ => trivial
  · rw [joinedRoom_of_joiner_none ev sid hj]
    simp only [Option.toList, List.append_nil]
    exact tracks_of_shrinks sid J s s2 hs (heff.2 sid (by simp [hj])) hJ

theorem joinedRooms_cons (sid : String) (now : Nat) (ev : Event) (tr : List (Nat × Event)) :
    joinedRooms sid ((now, ev) :: tr) = (ev.joinedRoom sid).toList ++ joinedRooms sid tr := by
  unfold joinedRooms
  cases hj : ev.joinedRoom sid with
  | none => simp [List.filterMap_cons, hj]
  | some r => simp [List.filterMap_cons, hj]

theorem run_tracks (sid : String) (tr : List (Nat × Event)) :
    ∀ (s0 s : Server) (J : List String), s0.run tr = some s → Tracks sid J s0 →
      Tracks sid (J ++ joinedRooms sid tr) s := by
  induction tr with
  | nil =>
    intro s0 s J h hJ
    simp only [run, Option.some.injEq] at h
    simpa [← h, joinedRooms] using hJ
  | cons e tr ih =>
    intro s0 s J h hJ
    obtain ⟨now, ev⟩ := e
    simp only [run] at h
    cases hs : s0.step now ev with
    | none => simp [hs] at h
    | some res =>
      obtain ⟨s1, out⟩ := res
      simp only [hs] at h
      rw [joinedRooms_cons, ← List.append_assoc]
      exact ih s1 s _ h (step_tracks sid s0 s1 now ev out hs J hJ)

theorem run_append_singleton (tr : List (Nat × Event)) (now : Nat) (ev : Event) :
    ∀ (s0 s : Server), s0.run (tr ++ [(now, ev)]) = some s →
      ∃ s1 out, s0.run tr = some s1 ∧ s1.step now ev = some (s, out) := by
  induction tr with
  | nil =>
    intro s0 s h
    simp only [List.nil_append, run] at h
    cases hs : s0.step now ev with
    | none => simp [hs] at h
    | some res =>
      obtain ⟨s1, out⟩ := res
      simp only [hs, Option.some.injEq] at h
      subst h
      exact ⟨s0, out, rfl, hs⟩
  | cons e tr ih =>
    intro s0 s h
    obtain ⟨now1, ev1⟩ := e
    simp only [List.cons_append, run] at h ⊢
    cases hs : s0.step now1 ev1 with
    | none => simp [hs] at h
    | some res =>
      obtain ⟨s1, out⟩ := res
      simp only [hs] at h ⊢
      exact ih s1 s h

end Server

/-- C8 fails as stated.  A connection that joins room "a", then room "b", and
disconnects leaves its record in room "a"; a connection that joins the room
with the empty id and disconnects leaves its record there. -/
theorem record_survives_disconnect :
    (∃ s, Server.init.run rejoinTrace = some s ∧
      ∃ e ∈ s.roomManager.rooms, "s1" ∈ socketIds e.2.clients) ∧
    (∃ s, Server.init.run emptyRoomIdTrace = some s ∧
      ∃ e ∈ s.roomManager.rooms, "s1" ∈ socketIds e.2.clients) :=
  ⟨⟨(Server.init.run rejoinTrace).getD Server.init, by decide, by decide⟩,
   ⟨(Server.init.run emptyRoomIdTrace).getD Server.init, by decide, by decide⟩⟩

/-- C8, amended: in every execution from the initial state in which connection
`sid` has sent at most one `join-room`, and none naming the empty room id, once
the handler of its `disconnect` has run no room of the registry holds a client
record carrying `sid`. -/
theorem disconnect_removes_record (tr : List (Nat × Event)) (now : Nat) (sid : String)
    (s : Server)
    (hrun : Server.init.run (tr ++ [(now, Event.disconnect sid)]) = some s)
    (hone : (joinedRooms sid tr).length ≤ 1) (hne : "" ∉ joinedRooms sid tr) :
    ∀ e ∈ s.roomManager.rooms, sid ∉ socketIds e.2.clients := by
  obtain ⟨s1, out, hrun1, hstep⟩ := Server.run_append_singleton tr now (Event.disconnect sid)
    Server.init s hrun
  have hwf := Server.run_wf _ Server.init s hrun Server.init_wf
  have h0 : Server.Tracks sid [] Server.init := by
    intro r
    simp [Server.init, RoomManager.new, RoomManager.getRoomClients, mapGet, socketIds]
  have htr := Server.run_tracks sid tr Server.init s1 [] hrun1 h0
  simp only [List.nil_append] at htr
  have hstep2 : s1.onSocket sid (fun c =>
      ((s1.onDisconnect sid c now).1,
       { (s1.onDisconnect sid c now).2.1 with connected := false },
       (s1.onDisconnect sid c now).2.2)) = some (s, out) := hstep
  obtain ⟨c, hc, _, hs, _⟩ := Server.onSocket_eq_some s1 sid _ s out hstep2
  have hrm : s.roomManager = (s1.onDisconnect sid c now).1.roomManager := by rw [hs]
  have hall : ∀ r, sid ∉ socketIds (s.roomManager.getRoomClients r) := by
    generalize hJ : joinedRooms sid tr = J at htr hone hne
    match J, htr with
    | [], htr =>
      intro r hmem
      rw [hrm] at hmem
      exact htr r (((Server.onDisconnect_registry s1 sid c now).2 r).subset hmem)
    | [r0], htr =>
      obtain ⟨⟨c1, hc1, hroom⟩, hother, hcount⟩ := htr
      rw [hc] at hc1
      cases hc1
      have hr0 : r0 ≠ "" := fun heq => hne (by simp [heq])
      have htruthy : strTruthy (some r0) = true := by
        simp [strTruthy, hr0]
      rw [Server.onDisconnect_roomManager, hroom] at hrm
      simp only [htruthy, if_true] at hrm
      intro r
      rw [hrm]
      by_cases hr : r0 = r
      · subst hr
        rw [RoomManager.getRoomClients_removeClient_same]
        exact RoomManager.not_mem_socketIds_eraseP sid _ hcount
      · rw [RoomManager.getRoomClients_removeClient_ne _ _ _ _ _ hr]
        exact hother r (fun heq => hr heq.symm)
    | _ :: _ :: _, _ => simp at hone
  intro e he
  rw [← RoomManager.eq_clients_of_mem s.roomManager hwf e he]
  exact hall e.1

/-- C8 (amended) at a concrete input: "s1" and "s2" join room "a", and "s1"
disconnects. -/
theorem disconnect_removes_record_witness :
    Server.init.run (twoClientsTrace ++ [(5, Event.disconnect "s1")])
      = some ((Server.init.run (twoClientsTrace ++ [(5, Event.disconnect "s1")])).getD
          Server.init) ∧
    (joinedRooms "s1" twoClientsTrace).length ≤ 1 ∧
    "" ∉ joinedRooms "s1" twoClientsTrace ∧
    ∀ e ∈ ((Server.init.run (twoClientsTrace ++ [(5, Event.disconnect "s1")])).getD
        Server.init).roomManager.rooms, "s1" ∉ socketIds e.2.clients :=
  ⟨by decide, by decide, by decide,
   disconnect_removes_record twoClientsTrace 5 "s1" _ (by decide) (by decide) (by decide)⟩

/-! ## Canvas-state publish, undo and redo -/

theorem mapSet_of_mapGet {α : Type} (l : List (String × α)) (k : String) (v : α)
    (h : mapGet l k = some v) : mapSet l k v = l := by
  induction l with
  | nil => simp [mapGet] at h
  | cons e rest ih =>
    obtain ⟨k', v'⟩ := e
    by_cases hk : k' = k
    · simp only [mapGet, hk, if_true, Option.some.injEq] at h
      simp [mapSet, hk, h]
    · simp only [mapGet, hk, if_false] at h
      simp [mapSet, hk, ih h]

namespace RoomManager

theorem getCanvasState_setCanvasState (m : RoomManager) (r : String) (b : JsVal) (now : Nat) :
    (m.setCanvasState r b now).getCanvasState r = b := by
  simp [setCanvasState, getCanvasState, mapGet_mapSet_same]

end RoomManager

namespace Server

theorem onSocket_same (s : Server) (socketId : String)
    (handler : Conn → Server × Conn × List Emit) (s2 : Server) (out : List Emit)
    (hsame : ∀ c, (handler c).1 = s ∧ (handler c).2.1 = c)
    (h : s.onSocket socketId handler = some (s2, out)) : s2 = s := by
  obtain ⟨c, hc, _, hs2, _⟩ := onSocket_eq_some s socketId handler s2 out h
  subst hs2
  rw [(hsame c).1, (hsame c).2, mapSet_of_mapGet _ _ _ hc]

end Server

/-- C11: in a turn that handles a `canvas-state` publish `{roomId r, canvasData b}`,
the store afterwards holds blob `b` for `r` with the version `r` had before
plus 1 (1 if it had none), the registry's `getCanvasState r` is `b`, and the
only emit is the relay to the others of room `r`, carrying `b` and the
sender's `currentUserId`; that message has no version field. -/
theorem canvasState_publish_saves_and_mirrors (s s2 : Server) (now : Nat)
    (socketId r : String) (b : JsVal) (out : List Emit)
    (hstep : s.step now (Event.canvasState socketId r b) = some (s2, out)) :
    s2.drawingStateManager.getState r
      = some { canvasData := b, timestamp := now,
               version := s.drawingStateManager.versionOf r + 1 } ∧
    (s.drawingStateManager.getState r = none →
      (s2.drawingStateManager.getState r).map (fun st => st.version) = some 1) ∧
    s2.roomManager.getCanvasState r = b ∧
    out = [{ target := Target.others r socketId,
             msg := Message.canvasStateRelay b (s.userIdOf socketId) }] := by
  obtain ⟨c, hc, _, hs2, hout⟩ := Server.onSocket_eq_some s socketId _ s2 out hstep
  subst hs2 hout
  have h1 : (s.drawingStateManager.saveState r b now).getState r
      = some { canvasData := b, timestamp := now,
               version := s.drawingStateManager.versionOf r + 1 } :=
    DrawingStateManager.getState_saveState_same _ _ _ _
  refine ⟨h1, ?_, RoomManager.getCanvasState_setCanvasState _ _ _ _, ?_⟩
  · intro hnone
    show ((s.drawingStateManager.saveState r b now).getState r).map (fun st => st.version)
      = some 1
    rw [h1]
    simp [DrawingStateManager.versionOf, hnone]
  · simp [Server.onCanvasState, Server.userIdOf, hc]

/-- C11 at a concrete input: "A" publishes blob "Y" to "r1", which holds
version 1. -/
theorem canvasState_publish_saves_and_mirrors_witness :
    exampleServer.step 4 (Event.canvasState "A" "r1" (JsVal.str "Y"))
      = some (exampleStep (Event.canvasState "A" "r1" (JsVal.str "Y"))) ∧
    (exampleStep (Event.canvasState "A" "r1" (JsVal.str "Y"))).1.drawingStateManager.getState "r1"
      = some { canvasData := JsVal.str "Y", timestamp := 4, version := 2 } ∧
    (exampleStep (Event.canvasState "A" "r1" (JsVal.str "Y"))).2
      = [{ target := Target.others "r1" "A",
           msg := Message.canvasStateRelay (JsVal.str "Y") (some "uA") }] :=
  ⟨by decide,
   (canvasState_publish_saves_and_mirrors exampleServer
      (exampleStep (Event.canvasState "A" "r1" (JsVal.str "Y"))).1 4 "A" "r1" (JsVal.str "Y")
      (exampleStep (Event.canvasState "A" "r1" (JsVal.str "Y"))).2 (by decide)).1,
   (canvasState_publish_saves_and_mirrors exampleServer
      (exampleStep (Event.canvasState "A" "r1" (JsVal.str "Y"))).1 4 "A" "r1" (JsVal.str "Y")
      (exampleStep (Event.canvasState "A" "r1" (JsVal.str "Y"))).2 (by decide)).2.2.2⟩

/-- C12: a turn that handles an `undo` or a `redo` leaves the whole server state
(store, registry, counters, connections) as it was; its only emit is one
broadcast to room `roomId`, sender included, carrying the sender's
`currentUserId` and `currentUsername` and the given blob. -/
theorem undo_redo_only_broadcast (s s2 : Server) (now : Nat) (ev : Event)
    (socketId roomId : String) (b : JsVal) (out : List Emit)
    (hev : ev = Event.undo socketId roomId b ∨ ev = Event.redo socketId roomId b)
    (hstep : s.step now ev = some (s2, out)) :
    s2 = s ∧
    s2.drawingStateManager = s.drawingStateManager ∧
    s2.roomManager = s.roomManager ∧
    out = [{ target := Target.room roomId,
             msg := undoRedoMessage ev (s.userIdOf socketId) (s.usernameOf socketId) b }] := by
  rcases hev with hev | hev
  · subst hev
    have hs : s2 = s := Server.onSocket_same s socketId _ s2 out (fun c => ⟨rfl, rfl⟩) hstep
    obtain ⟨c, hc, _, _, hout⟩ := Server.onSocket_eq_some s socketId _ s2 out hstep
    refine ⟨hs, by rw [hs], by rw [hs], ?_⟩
    rw [hout]
    simp [Server.onUndo, Server.userIdOf, Server.usernameOf, hc, undoRedoMessage]
  · subst hev
    have hs : s2 = s := Server.onSocket_same s socketId _ s2 out (fun c => ⟨rfl, rfl⟩) hstep
    obtain ⟨c, hc, _, _, hout⟩ := Server.onSocket_eq_some s socketId _ s2 out hstep
    refine ⟨hs, by rw [hs], by rw [hs], ?_⟩
    rw [hout]
    simp [Server.onRedo, Server.userIdOf, Server.usernameOf, hc, undoRedoMessage]

/-- C12 at a concrete input: "A" sends `redo` with blob "Z" for room "r1". -/
theorem undo_redo_only_broadcast_witness :
    exampleServer.step 4 (Event.redo "A" "r1" (JsVal.str "Z"))
      = some (exampleStep (Event.redo "A" "r1" (JsVal.str "Z"))) ∧
    (exampleStep (Event.redo "A" "r1" (JsVal.str "Z"))).1 = exampleServer ∧
    (exampleStep (Event.redo "A" "r1" (JsVal.str "Z"))).2
      = [{ target := Target.room "r1",
           msg := Message.redo (some "uA") (some "User1") (JsVal.str "Z") }] :=
  ⟨by decide,
   (undo_redo_only_broadcast exampleServer
      (exampleStep (Event.redo "A" "r1" (JsVal.str "Z"))).1 4
      (Event.redo "A" "r1" (JsVal.str "Z")) "A" "r1" (JsVal.str "Z")
      (exampleStep (Event.redo "A" "r1" (JsVal.str "Z"))).2 (Or.inr rfl) (by decide)).1,
   (undo_redo_only_broadcast exampleServer
      (exampleStep (Event.redo "A" "r1" (JsVal.str "Z"))).1 4
      (Event.redo "A" "r1" (JsVal.str "Z")) "A" "r1" (JsVal.str "Z")
      (exampleStep (Event.redo "A" "r1" (JsVal.str "Z"))).2 (Or.inr rfl) (by decide)).2.2.2⟩

/-! ## Cursor hints and lookups of unknown rooms -/

namespace RoomManager

theorem updateFirst_split {α : Type} (p : α → Bool) (f : α → α) (l : List α)
    (h : l.any p = true) :
    ∃ before c after, l = before ++ c :: after ∧ (∀ x ∈ before, p x = false) ∧ p c = true ∧
      updateFirst p f l = before ++ f c :: after := by
  induction l with
  | nil => simp at h
  | cons x xs ih =>
    by_cases hx : p x = true
    · exact ⟨[], x, xs, rfl, by simp, hx, by simp [updateFirst, hx]⟩
    · have hx2 : p x = false := by simpa using hx
      have hxs : xs.any p = true := by simpa [List.any_cons, hx2] using h
      obtain ⟨before, c, after, hl, hb, hc, hu⟩ := ih hxs
      refine ⟨x :: before, c, after, by simp [hl], ?_, hc, by simp [updateFirst, hx2, hu]⟩
      intro y hy
      rcases List.mem_cons.1 hy with hy | hy
      · rw [hy]; exact hx2
      · exact hb y hy

theorem updateCursorPosition_absent (m : RoomManager) (r u : String) (p : JsVal)
    (h : mapGet m.rooms r = none) : m.updateCursorPosition r u p = (m, false) := by
  simp [updateCursorPosition, h]

theorem updateCursorPosition_miss (m : RoomManager) (r u : String) (p : JsVal) (room : Room)
    (h : mapGet m.rooms r = some room)
    (hany : room.clients.any (fun c => decide (c.userId = u)) = false) :
    m.updateCursorPosition r u p = (m, false) := by
  simp [updateCursorPosition, h, hany]

theorem updateCursorPosition_hit (m : RoomManager) (r u : String) (p : JsVal) (room : Room)
    (h : mapGet m.rooms r = some room)
    (hany : room.clients.any (fun c => decide (c.userId = u)) = true) :
    m.updateCursorPosition r u p =
      ({ m with
         rooms := mapSet m.rooms r
           { room with
             clients := updateFirst (fun c => decide (c.userId = u))
               (fun c => { c with cursorPos := p }) room.clients } }, true) := by
  simp [updateCursorPosition, h, hany]

end RoomManager

/-- C13: `updateCursorPosition r u p` returns `true` exactly when room `r` exists
and has a client with `userId` `u`.  When it returns `true`, the clients of `r`
are `before ++ c :: after` with `c` the first one whose `userId` is `u`, and the
registry afterwards differs only in that `c` has `cursorPos` `p`: the other
clients, the other fields of `c` and of the room, and the other rooms are as
before.  When it returns `false` the registry is unchanged. -/
theorem updateCursorPosition_first_match (m : RoomManager) (r u : String) (p : JsVal) :
    ((m.updateCursorPosition r u p).2 = true ↔
      ∃ room, mapGet m.rooms r = some room ∧ ∃ c ∈ room.clients, c.userId = u) ∧
    ((m.updateCursorPosition r u p).2 = false → (m.updateCursorPosition r u p).1 = m) ∧
    ((m.updateCursorPosition r u p).2 = true →
      ∃ room before c after, mapGet m.rooms r = some room ∧
        room.clients = before ++ c :: after ∧ (∀ x ∈ before, x.userId ≠ u) ∧ c.userId = u ∧
        (m.updateCursorPosition r u p).1 =
          { m with
            rooms := mapSet m.rooms r
              { room with clients := before ++ { c with cursorPos := p } :: after } } ∧
        ∀ r2, r2 ≠ r →
          mapGet (m.updateCursorPosition r u p).1.rooms r2 = mapGet m.rooms r2) := by
  cases hg : mapGet m.rooms r with
  | none =>
    rw [RoomManager.updateCursorPosition_absent m r u p hg]
    simp
  | some room =>
    cases hany : room.clients.any (fun c => decide (c.userId = u)) with
    | false =>
      rw [RoomManager.updateCursorPosition_miss m r u p room hg hany]
      have hno : ∀ c ∈ room.clients, c.userId ≠ u := by
        intro c hc heq
        have : room.clients.any (fun c => decide (c.userId = u)) = true :=
          List.any_eq_true.2 ⟨c, hc, by simp [heq]⟩
        rw [hany] at this
        exact Bool.noConfusion this
      refine ⟨?_, fun _ => rfl, fun h => Bool.noConfusion h⟩
      constructor
      · intro h; exact Bool.noConfusion h
      · rintro ⟨room2, hr2, c, hc, hcu⟩
        cases hr2
        exact absurd hcu (hno c hc)
    | true =>
      rw [RoomManager.updateCursorPosition_hit m r u p room hg hany]
      obtain ⟨before, c, after, hl, hb, hc, hu⟩ :=
        RoomManager.updateFirst_split (fun c => decide (c.userId = u))
          (fun c => { c with cursorPos := p }) room.clients hany
      have hcu : c.userId = u := by simpa using hc
      refine ⟨⟨fun _ => ⟨room, rfl, c, by rw [hl]; simp, hcu⟩, fun _ => rfl⟩,
        fun h => Bool.noConfusion h, fun _ => ?_⟩
      refine ⟨room, before, c, after, rfl, hl, ?_, hcu, by rw [hu], ?_⟩
      · intro x hx
        simpa using hb x hx
      · intro r2 hr2
        exact mapGet_mapSet_ne _ _ _ _ (fun heq => hr2 heq.symm)

/-- C13 at a concrete input: in `cursorRegistry` the first of the two records of
user "u1" gets the position, the second keeps `null`. -/
theorem updateCursorPosition_first_match_witness :
    (cursorRegistry.updateCursorPosition "a" "u1" (JsVal.num 5)).2 = true ∧
    (((cursorRegistry.updateCursorPosition "a" "u1" (JsVal.num 5)).1.getRoomClients "a").map
        (fun c => (c.socketId, c.cursorPos))
      = [("c1", JsVal.num 5), ("c2", JsVal.null), ("c3", JsVal.null)]) ∧
    (cursorRegistry.updateCursorPosition "a" "zz" (JsVal.num 5)).2 = false ∧
    (cursorRegistry.updateCursorPosition "a" "zz" (JsVal.num 5)).1 = cursorRegistry :=
  ⟨by decide, by decide, by decide,
   (updateCursorPosition_first_match cursorRegistry "a" "zz" (JsVal.num 5)).2.1 (by decide)⟩

theorem mapHas_filter {α : Type} (l : List (String × α)) (q : String × α → Bool) (k : String)
    (h : mapHas (l.filter q) k = true) : mapHas l k = true := by
  rw [mapHas_iff_mem_mapKeys] at h ⊢
  exact (List.Sublist.map (fun e => e.1) (List.filter_sublist l)).subset h

theorem mapHas_mapSet_present {α : Type} (l : List (String × α)) (k k2 : String) (v : α)
    (hk : mapHas l k = true) (h : mapHas (mapSet l k v) k2 = true) : mapHas l k2 = true := by
  rw [mapHas_iff_mem_mapKeys] at h ⊢
  rw [mapKeys_mapSet, if_pos hk] at h
  exact h

namespace RoomManager

theorem apply_no_new_rooms (m : RoomManager) (now : Nat) (op : RegOp)
    (hop : op.creates = false) (k : String)
    (h : mapHas (m.apply now op).rooms k = true) : mapHas m.rooms k = true := by
  cases op with
  | getRoom r => simp [RegOp.creates] at hop
  | addClient r u c name color => simp [RegOp.creates] at hop
  | setCanvasState r b => simp [RegOp.creates] at hop
  | removeClient r c =>
    simp only [apply] at h
    cases hg : mapGet m.rooms r with
    | none => rw [removeClient_absent _ _ _ _ hg] at h; exact h
    | some room =>
      cases hf : room.clients.find? (fun cl => decide (cl.socketId = c)) with
      | none => rw [removeClient_miss _ _ _ _ _ hg hf] at h; exact h
      | some cl =>
        rw [removeClient_hit _ _ _ _ _ _ hg hf] at h
        exact mapHas_mapSet_present _ _ _ _ (by simp [mapHas, hg]) h
  | updateCursorPosition r u p =>
    simp only [apply] at h
    cases hg : mapGet m.rooms r with
    | none => rw [updateCursorPosition_absent _ _ _ _ hg] at h; exact h
    | some room =>
      cases hany : room.clients.any (fun c => decide (c.userId = u)) with
      | false => rw [updateCursorPosition_miss _ _ _ _ _ hg hany] at h; exact h
      | true =>
        rw [updateCursorPosition_hit _ _ _ _ _ hg hany] at h
        exact mapHas_mapSet_present _ _ _ _ (by simp [mapHas, hg]) h
  | cleanupInactiveRooms maxAge =>
    simp only [apply, cleanupInactiveRooms, foldl_cleanupRoomStep_rooms] at h
    exact mapHas_filter _ _ _ h
  | fireTimer j =>
    simp only [apply] at h
    rcases fireTimer_cases m j now with h1 | ⟨t, _, _, h1⟩
    · rw [h1] at h; exact h
    · rw [h1] at h
      rcases timerBody_rooms { m with timers := m.timers.eraseIdx j } t with h2 | h2
      · rw [h2] at h; exact h
      · rw [h2] at h
        exact mapHas_filter _ _ _ h

end RoomManager

/-- C14: for a room id `r` that is not in the registry, `removeClient r c`
returns `null`, `updateCursorPosition r u p` returns `false`, both leaving the
registry as it is, `getRoomClients r` is empty and `getCanvasState r` is
`null`; the two getters and `getRoomStats` return values only, and
`getRoomStats` lists exactly the room ids of the registry.  No call other
than `getRoom`, `addClient` and `setCanvasState` ever adds a room id, and these
three do register `r`. -/
theorem unknown_room_lookups (m : RoomManager) (r c u name color : String) (p b : JsVal)
    (now : Nat) (habs : mapGet m.rooms r = none) :
    m.removeClient r c now = (m, none) ∧
    m.updateCursorPosition r u p = (m, false) ∧
    m.getRoomClients r = [] ∧
    m.getCanvasState r = JsVal.null ∧
    m.getRoomStats.map (fun st => st.roomId) = mapKeys m.rooms ∧
    (∀ op : RegOp, op.creates = false → ∀ k,
      mapHas (m.apply now op).rooms k = true → mapHas m.rooms k = true) ∧
    mapHas (m.getRoom r now).1.rooms r = true ∧
    mapHas (m.addClient r u c name color now).1.rooms r = true ∧
    mapHas (m.setCanvasState r b now).rooms r = true := by
  refine ⟨RoomManager.removeClient_absent m r c now habs,
    RoomManager.updateCursorPosition_absent m r u p habs, ?_, ?_, ?_,
    fun op hop k h => RoomManager.apply_no_new_rooms m now op hop k h, ?_, ?_, ?_⟩
  · simp [RoomManager.getRoomClients, habs]
  · simp [RoomManager.getCanvasState, habs]
  · simp [RoomManager.getRoomStats, mapKeys]
  · simp [mapHas, RoomManager.getRoom_rooms_same]
  · simp [mapHas, RoomManager.addClient, mapGet_mapSet_same]
  · simp [mapHas, RoomManager.setCanvasState, mapGet_mapSet_same]

/-- C14 at a concrete input: room "zz" is not in `cursorRegistry`. -/
theorem unknown_room_lookups_witness :
    mapGet cursorRegistry.rooms "zz" = none ∧
    cursorRegistry.removeClient "zz" "c1" 9 = (cursorRegistry, none) ∧
    cursorRegistry.updateCursorPosition "zz" "u1" (JsVal.num 1) = (cursorRegistry, false) ∧
    cursorRegistry.getRoomClients "zz" = [] ∧
    cursorRegistry.getCanvasState "zz" = JsVal.null :=
  ⟨by decide,
   (unknown_room_lookups cursorRegistry "zz" "c1" "u1" "User9" "red" (JsVal.num 1)
      JsVal.null 9 (by decide)).1,
   (unknown_room_lookups cursorRegistry "zz" "c1" "u1" "User9" "red" (JsVal.num 1)
      JsVal.null 9 (by decide)).2.1,
   (unknown_room_lookups cursorRegistry "zz" "c1" "u1" "User9" "red" (JsVal.num 1)
      JsVal.null 9 (by decide)).2.2.1,
   (unknown_room_lookups cursorRegistry "zz" "c1" "u1" "User9" "red" (JsVal.num 1)
      JsVal.null 9 (by decide)).2.2.2.1⟩

/-! ## Cursor relay -/

namespace RoomManager

theorem updateCursorPosition_rooms_ne (m : RoomManager) (r r2 u : String) (p : JsVal)
    (hne : r2 ≠ r) : mapGet (m.updateCursorPosition r u p).1.rooms r2 = mapGet m.rooms r2 := by
  cases hg : mapGet m.rooms r with
  | none => rw [updateCursorPosition_absent _ _ _ _ hg]
  | some room =>
    cases hany : room.clients.any (fun c => decide (c.userId = u)) with
    | false => rw [updateCursorPosition_miss _ _ _ _ _ hg hany]
    | true =>
      rw [updateCursorPosition_hit _ _ _ _ _ hg hany]
      exact mapGet_mapSet_ne _ _ _ _ (fun heq => hne heq.symm)

end RoomManager

/-- C15 fails as stated: connection "s1" has joined room "a"; its `cursor-move`
naming room "b" and user "u2" sets the cursor position of "u2" in room "b"
and is relayed to room "b". -/
theorem cursorMove_reaches_other_room :
    crossRoomServer.roomOf "s1" = some "a" ∧
    crossRoomServer.step 5 (Event.cursorMove "s1" "b" "u2" (JsVal.num 9))
      = some (crossRoomStep (Event.cursorMove "s1" "b" "u2" (JsVal.num 9))) ∧
    (crossRoomStep (Event.cursorMove "s1" "b" "u2" (JsVal.num 9))).2
      = [{ target := Target.others "b" "s1", msg := Message.cursorMove "u2" (JsVal.num 9) }] ∧
    (crossRoomServer.roomManager.getRoomClients "b").map (fun c => (c.socketId, c.cursorPos))
      = [("s2", JsVal.null)] ∧
    ((crossRoomStep (Event.cursorMove "s1" "b" "u2" (JsVal.num 9))).1.roomManager.getRoomClients
        "b").map (fun c => (c.socketId, c.cursorPos))
      = [("s2", JsVal.num 9)] := by
  decide

/-- C15, amended: in a turn that handles a `cursor-move` `{roomId, userId, pos}`:
when the connection's `currentRoom` is `null` (it has not joined) or the empty
string, the server state is unchanged and nothing is emitted; otherwise the
registry afterwards is the result of `updateCursorPosition roomId userId pos`,
the only emit is the relay of `{userId, pos}` to the others of room `roomId`
(the room named by the event, which need not be the room joined), the store is
unchanged and every room other than `roomId` is as before. -/
theorem cursorMove_uses_named_room (s s2 : Server) (now : Nat)
    (socketId roomId userId : String) (pos : JsVal) (out : List Emit)
    (hstep : s.step now (Event.cursorMove socketId roomId userId pos) = some (s2, out)) :
    (s.roomOf socketId = none → s2 = s ∧ out = []) ∧
    (strTruthy (s.roomOf socketId) = false → s2 = s ∧ out = []) ∧
    (strTruthy (s.roomOf socketId) = true →
      s2.roomManager = (s.roomManager.updateCursorPosition roomId userId pos).1 ∧
      out = [{ target := Target.others roomId socketId,
               msg := Message.cursorMove userId pos }] ∧
      s2.drawingStateManager = s.drawingStateManager ∧
      ∀ r2, r2 ≠ roomId →
        mapGet s2.roomManager.rooms r2 = mapGet s.roomManager.rooms r2) := by
  obtain ⟨c, hc, _, hs2, hout⟩ := Server.onSocket_eq_some s socketId _ s2 out hstep
  have hroom : s.roomOf socketId = c.currentRoom := by simp [Server.roomOf, hc]
  have hfalse : strTruthy (s.roomOf socketId) = false → s2 = s ∧ out = [] := by
    intro h
    rw [hroom] at h
    have h1 : s.onCursorMove socketId c roomId userId pos = (s, c, []) := by
      simp [Server.onCursorMove, h]
    rw [h1] at hs2 hout
    refine ⟨?_, hout⟩
    rw [hs2]
    show ({ s with sockets := mapSet s.sockets socketId c } : Server) = s
    rw [mapSet_of_mapGet _ _ _ hc]
  refine ⟨fun h => hfalse (by rw [h]; rfl), hfalse, ?_⟩
  intro h
  rw [hroom] at h
  have h1 : s.onCursorMove socketId c roomId userId pos =
      ({ s with roomManager := (s.roomManager.updateCursorPosition roomId userId pos).1 }, c,
       [{ target := Target.others roomId socketId, msg := Message.cursorMove userId pos }]) := by
    simp [Server.onCursorMove, h]
  rw [h1] at hs2 hout
  subst hs2
  refine ⟨rfl, hout, rfl, ?_⟩
  intro r2 hr2
  exact RoomManager.updateCursorPosition_rooms_ne _ _ _ _ _ hr2

/-- C15 (amended) at a concrete input: "s1", which joined room "a", moves the
cursor of "u1" in room "a". -/
theorem cursorMove_uses_named_room_witness :
    crossRoomServer.step 5 (Event.cursorMove "s1" "a" "u1" (JsVal.num 3))
      = some (crossRoomStep (Event.cursorMove "s1" "a" "u1" (JsVal.num 3))) ∧
    strTruthy (crossRoomServer.roomOf "s1") = true ∧
    (crossRoomStep (Event.cursorMove "s1" "a" "u1" (JsVal.num 3))).2
      = [{ target := Target.others "a" "s1", msg := Message.cursorMove "u1" (JsVal.num 3) }] ∧
    mapGet (crossRoomStep (Event.cursorMove "s1" "a" "u1" (JsVal.num 3))).1.roomManager.rooms "b"
      = mapGet crossRoomServer.roomManager.rooms "b" :=
  ⟨by decide, by decide,
   ((cursorMove_uses_named_room crossRoomServer
      (crossRoomStep (Event.cursorMove "s1" "a" "u1" (JsVal.num 3))).1 5 "s1" "a" "u1"
      (JsVal.num 3) (crossRoomStep (Event.cursorMove "s1" "a" "u1" (JsVal.num 3))).2
      (by decide)).2.2 (by decide)).2.1,
   ((cursorMove_uses_named_room crossRoomServer
      (crossRoomStep (Event.cursorMove "s1" "a" "u1" (JsVal.num 3))).1 5 "s1" "a" "u1"
      (JsVal.num 3) (crossRoomStep (Event.cursorMove "s1" "a" "u1" (JsVal.num 3))).2
      (by decide)).2.2 (by decide)).2.2.2 "b" (by decide)⟩

/-! ## The sweeps -/

namespace DrawingStateManager

theorem countP_eq_length_sub {α : Type} (p : α → Bool) (l : List α) :
    l.countP p = l.length - (l.filter (fun e => !p e)).length := by
  induction l with
  | nil => simp
  | cons x xs ih =>
    have hle := List.length_filter_le (fun e => !p e) xs
    by_cases hx : p x = true
    · simp only [List.countP_cons, hx, if_true, List.filter_cons, Bool.not_true,
        List.length_cons]
      simp only [Bool.false_eq_true, if_false]
      omega
    · have hx2 : p x = false := by simpa using hx
      simp only [List.countP_cons, hx2, List.filter_cons, Bool.not_false, if_true,
        List.length_cons]
      simp only [Bool.false_eq_true, if_false]
      omega

theorem foldl_cleanupStep (maxAge : Int) (now : Nat) (es : List (String × CanvasState)) :
    ∀ acc : DrawingStateManager × Nat,
      es.foldl (cleanupStep maxAge now) acc =
        ({ states := acc.1.states.filter (fun e =>
             !(es.any (fun d => stale maxAge now d.2 && decide (d.1 = e.1)))) },
         acc.2 + es.countP (fun d => stale maxAge now d.2)) := by
  induction es with
  | nil => intro acc; simp
  | cons d es ih =>
    intro acc
    rw [List.foldl_cons, ih]
    have hcount := List.countP_cons (p := fun d : String × CanvasState => stale maxAge now d.2)
      d es
    by_cases hd : stale maxAge now d.2 = true
    · have hd2 : (now : Int) - (d.2.timestamp : Int) > maxAge := by
        simpa [stale] using hd
      simp only [hd, if_true] at hcount
      simp only [cleanupStep, hd2, if_true, mapDelete, List.filter_filter]
      refine Prod.ext ?_ ?_
      · simp only []
        congr 1
        apply List.filter_congr
        intro e _
        by_cases hk : d.1 = e.1
        · simp [hk, hd]
        · have hk2 : ¬ e.1 = d.1 := fun h => hk h.symm
          simp [hk, hk2, hd]
      · simp only []
        rw [hcount]
        omega
    · have hd3 : stale maxAge now d.2 = false := by simpa using hd
      have hd2 : ¬ ((now : Int) - (d.2.timestamp : Int) > maxAge) := by
        simpa [stale] using hd3
      simp only [hd3, Bool.false_eq_true, if_false, Nat.add_zero] at hcount
      simp only [cleanupStep, hd2, if_false]
      refine Prod.ext ?_ ?_
      · simp only []
        congr 1
        apply List.filter_congr
        intro e _
        simp [hd3]
      · simp only []
        rw [hcount]

theorem cleanup_eq (m : DrawingStateManager) (maxAge : Int) (now : Nat)
    (hnd : (mapKeys m.states).Nodup) :
    m.cleanup maxAge now =
      ({ states := m.states.filter (fun e => !(stale maxAge now e.2)) },
       m.states.countP (fun e => stale maxAge now e.2)) := by
  unfold cleanup
  rw [foldl_cleanupStep]
  refine Prod.ext ?_ (by simp)
  simp only []
  congr 1
  apply List.filter_congr
  intro e he
  by_cases hi : stale maxAge now e.2 = true
  · have : m.states.any (fun d => stale maxAge now d.2 && decide (d.1 = e.1)) = true :=
      List.any_eq_true.2 ⟨e, he, by simp [hi]⟩
    simp [this, hi]
  · have hi2 : stale maxAge now e.2 = false := by simpa using hi
    have : m.states.any (fun d => stale maxAge now d.2 && decide (d.1 = e.1)) = false := by
      rw [List.any_eq_false]
      intro d hd hcon
      simp only [Bool.and_eq_true, decide_eq_true_eq] at hcon
      have h1 : mapGet m.states d.1 = some d.2 := RoomManager.mapGet_of_mem _ _ _ hnd hd
      have h2 : mapGet m.states e.1 = some e.2 := RoomManager.mapGet_of_mem _ _ _ hnd he
      rw [hcon.2, h2] at h1
      have : e.2 = d.2 := by simpa using h1
      rw [this, hcon.1] at hi2
      exact Bool.noConfusion hi2
    simp [this, hi2]

end DrawingStateManager

/-- C16: for a store with distinct keys, `cleanup maxAge` at clock reading `now`
removes exactly the states with `now - timestamp > maxAge`: the map afterwards
is the map before without those entries, every other state is unchanged, and
the returned count is the number of entries removed, which is the size before
minus the size after. -/
theorem store_cleanup_removes_exactly (m : DrawingStateManager) (maxAge : Int) (now : Nat)
    (hnd : (mapKeys m.states).Nodup) :
    (m.cleanup maxAge now).1.states =
      m.states.filter (fun e => !decide ((now : Int) - (e.2.timestamp : Int) > maxAge)) ∧
    (∀ r, (m.cleanup maxAge now).1.getState r =
      match m.getState r with
      | none => none
      | some st => if (now : Int) - (st.timestamp : Int) > maxAge then none else some st) ∧
    (m.cleanup maxAge now).2 =
      (m.states.filter (fun e => decide ((now : Int) - (e.2.timestamp : Int) > maxAge))).length ∧
    (m.cleanup maxAge now).2 = m.states.length - (m.cleanup maxAge now).1.states.length := by
  rw [DrawingStateManager.cleanup_eq m maxAge now hnd]
  refine ⟨rfl, ?_, ?_, ?_⟩
  · intro r
    show mapGet (m.states.filter (fun e => !(DrawingStateManager.stale maxAge now e.2))) r = _
    rw [RoomManager.mapGet_filter m.states
      (fun st => !(DrawingStateManager.stale maxAge now st)) r hnd]
    show _ = match mapGet m.states r with
      | none => none
      | some st => if (now : Int) - (st.timestamp : Int) > maxAge then none else some st
    cases hg : mapGet m.states r with
    | none => simp [Option.filter]
    | some st =>
      by_cases hc : (now : Int) - (st.timestamp : Int) > maxAge
      · dsimp only
        rw [if_pos hc]
        simp [Option.filter, DrawingStateManager.stale, hc]
      · dsimp only
        rw [if_neg hc]
        simp [Option.filter, DrawingStateManager.stale, hc]
  · show m.states.countP (fun e => DrawingStateManager.stale maxAge now e.2) = _
    rw [List.countP_eq_length_filter]
    rfl
  · exact DrawingStateManager.countP_eq_length_sub
      (fun e : String × CanvasState => DrawingStateManager.stale maxAge now e.2) m.states

/-- C16 at a concrete input: with the default `maxAge`, at clock reading
90000001 the state of "old" is removed, that of "new" stays, and 1 is returned. -/
theorem store_cleanup_removes_exactly_witness :
    (mapKeys exampleStore.states).Nodup ∧
    (exampleStore.cleanup DrawingStateManager.defaultMaxAge 90000001).2 = 1 ∧
    (exampleStore.cleanup DrawingStateManager.defaultMaxAge 90000001).1.getState "old" = none ∧
    (exampleStore.cleanup DrawingStateManager.defaultMaxAge 90000001).1.getState "new"
      = exampleStore.getState "new" ∧
    (exampleStore.cleanup DrawingStateManager.defaultMaxAge 90000001).2 =
      exampleStore.states.length -
        (exampleStore.cleanup DrawingStateManager.defaultMaxAge 90000001).1.states.length :=
  ⟨by decide, by decide, by decide, by decide,
   (store_cleanup_removes_exactly exampleStore DrawingStateManager.defaultMaxAge 90000001
      (by decide)).2.2.2⟩

namespace RoomManager

theorem foldl_cleanupRoomStep_of_active (maxAge : Int) (now : Nat)
    (es : List (String × Room)) (hes : ∀ e ∈ es, inactive maxAge now e.2 = false) :
    ∀ acc : RoomManager, es.foldl (cleanupRoomStep maxAge now) acc = acc := by
  induction es with
  | nil => intro acc; rfl
  | cons d es ih =>
    intro acc
    have hd : inactive maxAge now d.2 = false := hes d (List.mem_cons_self _ _)
    rw [List.foldl_cons]
    have hstep : cleanupRoomStep maxAge now acc d = acc := by
      simp [cleanupRoomStep, hd]
    rw [hstep]
    exact ih (fun e he => hes e (List.mem_cons_of_mem _ he)) acc

theorem cleanupInactiveRooms_active (m : RoomManager) (maxAge : Int) (now : Nat) :
    ∀ e ∈ (m.cleanupInactiveRooms maxAge now).rooms, inactive maxAge now e.2 = false := by
  intro e he
  unfold cleanupInactiveRooms at he
  rw [foldl_cleanupRoomStep_rooms] at he
  obtain ⟨hmem, hq⟩ := List.mem_filter.1 he
  cases hi : inactive maxAge now e.2 with
  | false => rfl
  | true =>
    have : m.rooms.any (fun d => inactive maxAge now d.2 && decide (d.1 = e.1)) = true :=
      List.any_eq_true.2 ⟨e, hmem, by simp [hi]⟩
    simp [this] at hq

end RoomManager

/-- C17: `cleanupInactiveRooms` is idempotent: a second call with the same
`maxAge` at the same clock reading leaves the registry as the first call left
it. -/
theorem cleanupInactiveRooms_idempotent (m : RoomManager) (maxAge : Int) (now : Nat) :
    (m.cleanupInactiveRooms maxAge now).cleanupInactiveRooms maxAge now
      = m.cleanupInactiveRooms maxAge now := by
  have h := RoomManager.cleanupInactiveRooms_active m maxAge now
  generalize m.cleanupInactiveRooms maxAge now = m1 at h
  unfold RoomManager.cleanupInactiveRooms
  exact RoomManager.foldl_cleanupRoomStep_of_active maxAge now m1.rooms h m1

/-! ## Join: the list of other users; clear -/

namespace Server

theorem otherUsers_eq (l : List Client) (u : String) :
    otherUsers l u = (l.filter (fun c => decide (c.userId ≠ u))).map Client.info := by
  induction l with
  | nil => rfl
  | cons c cs ih =>
    simp only [otherUsers, List.map_cons] at ih ⊢
    by_cases h : c.userId = u
    · simp only [List.filter_cons, h, ne_eq, not_true_eq_false, decide_False, Bool.false_eq_true,
        if_false]
      exact ih
    · simp only [List.filter_cons, h, ne_eq, not_false_eq_true, decide_True, if_true,
        List.map_cons, Client.info]
      rw [ih]

theorem emitsNamed_usersUpdate_canvasSync (d : DrawingStateManager) (socketId roomId : String) :
    emitsNamed "users-update" (canvasSync d socketId roomId) = [] := by
  unfold canvasSync
  cases d.getState roomId with
  | none => rfl
  | some st => simp [emitsNamed, Message.eventName]

end Server

/-- C18: in a turn that handles a `join-room` `{roomId r, userId u, color}`, the
only `users-update` emit goes to the joining connection and its list is made
of the client records of `r` after the joiner was registered whose `userId`
differs from `u`, each reduced to `{userId, username, color}`: no entry has
`userId` `u` (so the joiner's own record is not in it), and every member with a
different `userId` is in it. -/
theorem join_users_update_lists_others (s s2 : Server) (now : Nat)
    (socketId r u username color : String) (out : List Emit)
    (hstep : s.step now (Event.joinRoom socketId r u username color) = some (s2, out)) :
    emitsNamed "users-update" out =
      [{ target := Target.socket socketId,
         msg := Message.usersUpdate (membersOtherThan s2.roomManager r u) }] ∧
    (∃ c ∈ s2.roomManager.getRoomClients r, c.socketId = socketId ∧ c.userId = u) ∧
    (∀ x ∈ membersOtherThan s2.roomManager r u, x.userId ≠ u) ∧
    (∀ c ∈ s2.roomManager.getRoomClients r, c.userId ≠ u →
      c.info ∈ membersOtherThan s2.roomManager r u) := by
  obtain ⟨c, _, _, hs2, hout⟩ := Server.onSocket_eq_some s socketId _ s2 out hstep
  subst hs2 hout
  refine ⟨?_, ?_, ?_, ?_⟩
  · have hc2 := Server.emitsNamed_usersUpdate_canvasSync s.drawingStateManager socketId r
    simp only [emitsNamed] at hc2 ⊢
    simp only [Server.onJoinRoom, List.filter_append, hc2, Server.otherUsers_eq]
    simp [Message.eventName, membersOtherThan]
  · show ∃ c ∈ (s.roomManager.addClient r u socketId _ color now).1.getRoomClients r, _
    rw [RoomManager.getRoomClients_addClient_same]
    exact ⟨_, List.mem_append_right _ (List.mem_singleton.2 rfl), rfl, rfl⟩
  · intro x hx
    simp only [membersOtherThan, List.mem_map, List.mem_filter] at hx
    obtain ⟨c1, ⟨_, hc1⟩, hx1⟩ := hx
    rw [← hx1]
    simpa [Client.info] using hc1
  · intro c1 hc1 hne
    simp only [membersOtherThan, List.mem_map, List.mem_filter]
    exact ⟨c1, ⟨hc1, by simpa using hne⟩, rfl⟩

/-- C18 at a concrete input: "C" joins "r1" as "uC" while "A" is a member. -/
theorem join_users_update_lists_others_witness :
    exampleServer.step 4 (Event.joinRoom "C" "r1" "uC" "" "blue") = some exampleJoin ∧
    emitsNamed "users-update" exampleJoin.2 =
      [{ target := Target.socket "C",
         msg := Message.usersUpdate (membersOtherThan exampleJoin.1.roomManager "r1" "uC") }] ∧
    membersOtherThan exampleJoin.1.roomManager "r1" "uC"
      = [{ userId := "uA", username := "User1", color := "red" }] :=
  ⟨by decide,
   (join_users_update_lists_others exampleServer exampleJoin.1 4 "C" "r1" "uC" "" "blue"
      exampleJoin.2 (by decide)).1,
   by decide⟩

/-- C19: a turn that handles `clear-canvas` `{roomId r}` removes the store's entry
for `r` only and leaves the registry as it was: `getState r` is `null`
afterwards and the states of the other rooms are as before, while `getCanvasState r` returns the blob it returned before and
`getRoomStats` (with its `hasCanvasState` flags) is the same. -/
theorem clearCanvas_keeps_registry_mirror (s s2 : Server) (now : Nat)
    (socketId r : String) (out : List Emit)
    (hstep : s.step now (Event.clearCanvas socketId r) = some (s2, out)) :
    s2.drawingStateManager.getState r = none ∧
    (∀ r2, r2 ≠ r → s2.drawingStateManager.getState r2 = s.drawingStateManager.getState r2) ∧
    s2.roomManager = s.roomManager ∧
    s2.roomManager.getCanvasState r = s.roomManager.getCanvasState r ∧
    s2.roomManager.getRoomStats = s.roomManager.getRoomStats := by
  obtain ⟨c, _, _, hs2, _⟩ := Server.onSocket_eq_some s socketId _ s2 out hstep
  subst hs2
  refine ⟨?_, ?_, rfl, rfl, rfl⟩
  · show (s.drawingStateManager.clearState r).getState r = none
    simp [DrawingStateManager.clearState, DrawingStateManager.getState, mapGet_mapDelete_same]
  · intro r2 hr2
    show (s.drawingStateManager.clearState r).getState r2 = _
    simp [DrawingStateManager.clearState, DrawingStateManager.getState,
      mapGet_mapDelete_ne _ _ _ (Ne.symm hr2)]

/-- C19 at a concrete input: after "A" clears "r1", the store has no state for
"r1" and the registry still mirrors blob "X". -/
theorem clearCanvas_keeps_registry_mirror_witness :
    exampleServer.step 4 (Event.clearCanvas "A" "r1")
      = some (exampleStep (Event.clearCanvas "A" "r1")) ∧
    exampleServer.roomManager.getCanvasState "r1" = JsVal.str "X" ∧
    (exampleStep (Event.clearCanvas "A" "r1")).1.drawingStateManager.getState "r1" = none ∧
    (exampleStep (Event.clearCanvas "A" "r1")).1.roomManager.getCanvasState "r1"
      = exampleServer.roomManager.getCanvasState "r1" ∧
    (exampleStep (Event.clearCanvas "A" "r1")).1.roomManager.getRoomStats
      = exampleServer.roomManager.getRoomStats :=
  ⟨by decide, by decide,
   (clearCanvas_keeps_registry_mirror exampleServer (exampleStep (Event.clearCanvas "A" "r1")).1
      4 "A" "r1" (exampleStep (Event.clearCanvas "A" "r1")).2 (by decide)).1,
   (clearCanvas_keeps_registry_mirror exampleServer (exampleStep (Event.clearCanvas "A" "r1")).1
      4 "A" "r1" (exampleStep (Event.clearCanvas "A" "r1")).2 (by decide)).2.2.2.1,
   (clearCanvas_keeps_registry_mirror exampleServer (exampleStep (Event.clearCanvas "A" "r1")).1
      4 "A" "r1" (exampleStep (Event.clearCanvas "A" "r1")).2 (by decide)).2.2.2.2⟩

/-! ## Drawing relay -/

theorem mapGet_stampedDrawing (data : List (String × JsVal)) (userId : Option String)
    (socketId : String) :
    mapGet (stampedDrawing data userId socketId) "userId" = some (optStr userId) ∧
    mapGet (stampedDrawing data userId socketId) "socketId" = some (JsVal.str socketId) ∧
    ∀ k, k ≠ "userId" → k ≠ "socketId" →
      mapGet (stampedDrawing data userId socketId) k = mapGet data k := by
  refine ⟨?_, ?_, ?_⟩
  · unfold stampedDrawing
    rw [mapGet_mapSet_ne _ _ _ _ (by decide), mapGet_mapSet_same]
  · unfold stampedDrawing
    rw [mapGet_mapSet_same]
  · intro k h1 h2
    unfold stampedDrawing
    rw [mapGet_mapSet_ne _ _ _ _ (Ne.symm h2), mapGet_mapSet_ne _ _ _ _ (Ne.symm h1)]

/-- C20 fails as stated: connection "s1" has joined the room with the empty id
and is registered there, yet its `drawing` event is not relayed. -/
theorem drawing_not_relayed_in_empty_room_id :
    emptyRoomServer.roomOf "s1" = some "" ∧
    socketIds (emptyRoomServer.roomManager.getRoomClients "") = ["s1"] ∧
    emptyRoomServer.step 2 (Event.drawing "s1" [("x", JsVal.num 1)])
      = some (emptyRoomServer, []) := by
  decide

/-- C20, amended: a turn that handles a `drawing` event leaves the server state
(registry, store, counters, connections) as it was.  When the connection's
`currentRoom` is a non-empty room id `r`, the only emit is the relay to the
others of room `r`, whose payload is the event's payload with `userId` set to
the connection's `currentUserId` and `socketId` set to the connection id,
whatever the payload said, every other field being as in the payload.  When
`currentRoom` is `null` or the empty string, nothing is emitted. -/
theorem drawing_relay_stamps_sender (s s2 : Server) (now : Nat) (socketId : String)
    (data : List (String × JsVal)) (out : List Emit)
    (hstep : s.step now (Event.drawing socketId data) = some (s2, out)) :
    s2 = s ∧
    (strTruthy (s.roomOf socketId) = false → out = []) ∧
    (∀ r, s.roomOf socketId = some r → r ≠ "" →
      out = [{ target := Target.others r socketId,
               msg := Message.drawing (stampedDrawing data (s.userIdOf socketId) socketId) }] ∧
      (∀ u, s.userIdOf socketId = some u →
        mapGet (stampedDrawing data (s.userIdOf socketId) socketId) "userId"
          = some (JsVal.str u)) ∧
      mapGet (stampedDrawing data (s.userIdOf socketId) socketId) "socketId"
        = some (JsVal.str socketId) ∧
      ∀ k, k ≠ "userId" → k ≠ "socketId" →
        mapGet (stampedDrawing data (s.userIdOf socketId) socketId) k = mapGet data k) := by
  have hs : s2 = s := Server.onSocket_same s socketId _ s2 out
    (fun c => Server.onDrawing_same s socketId c data) hstep
  obtain ⟨c, hc, _, _, hout⟩ := Server.onSocket_eq_some s socketId _ s2 out hstep
  have hroom : s.roomOf socketId = c.currentRoom := by simp [Server.roomOf, hc]
  have huid : s.userIdOf socketId = c.currentUserId := by simp [Server.userIdOf, hc]
  refine ⟨hs, ?_, ?_⟩
  · intro h
    rw [hroom] at h
    rw [hout]
    unfold Server.onDrawing
    cases hr : c.currentRoom with
    | none => rfl
    | some r =>
      rw [hr] at h
      simp [h]
  · intro r hr hne
    rw [hroom] at hr
    have htruthy : strTruthy (some r) = true := by simp [strTruthy, hne]
    have hstamp := mapGet_stampedDrawing data (s.userIdOf socketId) socketId
    refine ⟨?_, ?_, hstamp.2.1, hstamp.2.2⟩
    · rw [hout, huid]
      unfold Server.onDrawing
      rw [hr]
      simp [htruthy, stampedDrawing]
    · intro u hu
      rw [hstamp.1, hu]
      rfl

/-- C20 (amended) at a concrete input: "A", which joined "r1" as "uA", sends a
payload; the relay goes to "r1" stamped with "uA" and "A". -/
theorem drawing_relay_stamps_sender_witness :
    exampleServer.step 4 (Event.drawing "A" spoofedDrawing)
      = some (exampleStep (Event.drawing "A" spoofedDrawing)) ∧
    exampleServer.roomOf "A" = some "r1" ∧
    (exampleStep (Event.drawing "A" spoofedDrawing)).1 = exampleServer ∧
    (exampleStep (Event.drawing "A" spoofedDrawing)).2
      = [{ target := Target.others "r1" "A",
           msg := Message.drawing
             (stampedDrawing spoofedDrawing (exampleServer.userIdOf "A") "A") }] ∧
    stampedDrawing spoofedDrawing (exampleServer.userIdOf "A") "A"
      = [("x", JsVal.num 1), ("userId", JsVal.str "uA"), ("socketId", JsVal.str "A"),
         ("roomId", JsVal.str "r9"), ("y", JsVal.num 2)] :=
  ⟨by decide, by decide,
   (drawing_relay_stamps_sender exampleServer (exampleStep (Event.drawing "A" spoofedDrawing)).1
      4 "A" spoofedDrawing (exampleStep (Event.drawing "A" spoofedDrawing)).2 (by decide)).1,
   ((drawing_relay_stamps_sender exampleServer (exampleStep (Event.drawing "A" spoofedDrawing)).1
      4 "A" spoofedDrawing (exampleStep (Event.drawing "A" spoofedDrawing)).2 (by decide)).2.2
      "r1" (by decide) (by decide)).1,
   by decide⟩
